import Mathlib

set_option maxHeartbeats 1000000

/-!
Verification of the evo-sim genotype/phenotype core.

Shallow embedding of the simulation sources:
  src/evo-sim/src/simulation/linalg.ts   (vector/matrix views over a flat buffer)
  src/evo-sim/src/simulation/gru.ts      (MinimalGatedUnit controller)
  src/evo-sim/src/simulation/Gene.ts     (tree body genome, random growth)
  src/evo-sim/src/simulation/Genome.ts   (full genome, mutation, cloning)
  src/evo-sim/src/simulation/BodyPart.ts (attachment geometry, ground friction)

Floating point numbers are modelled as real numbers for the controller and
friction mathematics, and as rationals for the genome data (where all
operations are ordered-field operations and decidability matters).
Math.random() is modelled as an explicit stream of draws, a function from a
draw counter to a rational; every function that consumes randomness threads
the counter.
-/

namespace EvoSim

/-! ### GRU configuration and parameter packing, from gru.ts -/

structure GRUConfig where
  inputSize : Nat
  hiddenSize : Nat
  outputSize : Nat
deriving DecidableEq, Repr

/-- stateSize = outputSize + hiddenSize, as computed in the MinimalGatedUnit
constructor and in getGRUGeneSize. -/
def GRUConfig.stateSize (c : GRUConfig) : Nat := c.outputSize + c.hiddenSize

/-- getGRUGeneSize from gru.ts: bias block, input-weight block and
state-weight block sizes, summed. -/
def getGRUGeneSize (c : GRUConfig) : Nat :=
  let stateSize := c.stateSize
  let biasSize := stateSize * 2
  let inputMatrixSize := c.inputSize * stateSize * 2
  let stateMatrixSize := stateSize * stateSize * 2
  biasSize + inputMatrixSize + stateMatrixSize

/-- getGRUStateSize from gru.ts: working storage for x, f, h and hc. -/
def getGRUStateSize (c : GRUConfig) : Nat := c.inputSize + c.stateSize * 3

/-- shapeVec bounds check from linalg.ts: shapeVec throws unless
offset + n fits inside the buffer. -/
def shapeVecOk (len n offset : Nat) : Bool := decide (offset + n ≤ len)

/-- shapeMat bounds check from linalg.ts: shapeMat throws unless
offset + w * h fits inside the buffer. -/
def shapeMatOk (len w h offset : Nat) : Bool := decide (offset + w * h ≤ len)

/-- The validation performed by the MinimalGatedUnit constructor in gru.ts on
a gene buffer of length len: the explicit size check, then the six packed
shapeVec / shapeMat calls on the gene buffer (bf, bh, Wf, Wh, Uf, Uh in that
order), then the four shapeVec calls on the freshly allocated state storage.
Returns true exactly when the TypeScript constructor does not throw. -/
def MinimalGatedUnit.constructorOk (c : GRUConfig) (len : Nat) : Bool :=
  let s := c.stateSize
  let stLen := getGRUStateSize c
  decide (getGRUGeneSize c ≤ len)
    && shapeVecOk len s 0
    && shapeVecOk len s s
    && shapeMatOk len c.inputSize s (2 * s)
    && shapeMatOk len c.inputSize s (2 * s + c.inputSize * s)
    && shapeMatOk len s s (2 * s + 2 * (c.inputSize * s))
    && shapeMatOk len s s (2 * s + 2 * (c.inputSize * s) + s * s)
    && shapeVecOk stLen c.inputSize 0
    && shapeVecOk stLen s c.inputSize
    && shapeVecOk stLen s (c.inputSize + s)
    && shapeVecOk stLen s (c.inputSize + 2 * s)

/-! ### Vector and matrix views over a flat real buffer, from linalg.ts -/

/-- A VecR32 view: length and start offset into a backing buffer. -/
structure VecView where
  n : Nat
  offset : Nat

/-- VecR32.get: element i reads the buffer at offset + i. -/
def VecView.get (v : VecView) (buf : Nat → ℝ) (i : Nat) : ℝ := buf (v.offset + i)

/-- A MatR32 view: width, height and start offset into a backing buffer. -/
structure MatView where
  w : Nat
  h : Nat
  offset : Nat

/-- MatR32.get: element (x, y) reads the buffer at offset + x + y * w. -/
def MatView.get (m : MatView) (buf : Nat → ℝ) (x y : Nat) : ℝ :=
  buf (m.offset + x + y * m.w)

/-- matVecMul from linalg.ts: result i is the sum over j of mat(j, i) times
vec j, the column index iterating the input. -/
noncomputable def matVecMulV (m : MatView) (buf : Nat → ℝ) (vec : Nat → ℝ) :
    Nat → ℝ :=
  fun i => ∑ j ∈ Finset.range m.w, m.get buf j i * vec j

/-- vecAdd from linalg.ts, elementwise. -/
noncomputable def vecAddF (a b : Nat → ℝ) : Nat → ℝ := fun i => a i + b i

/-- vecMul from linalg.ts, elementwise. -/
noncomputable def vecMulF (a b : Nat → ℝ) : Nat → ℝ := fun i => a i * b i

/-- vecScale from linalg.ts, elementwise. -/
noncomputable def vecScaleF (a : Nat → ℝ) (c : ℝ) : Nat → ℝ := fun i => a i * c

/-- vecAddScalar from linalg.ts, elementwise. -/
noncomputable def vecAddScalarF (a : Nat → ℝ) (c : ℝ) : Nat → ℝ := fun i => a i + c

/-- VecR32.apply from linalg.ts, elementwise. -/
noncomputable def vecApplyF (a : Nat → ℝ) (f : ℝ → ℝ) : Nat → ℝ := fun i => f (a i)

/-- sigmoid from linalg.ts. -/
noncomputable def sigmoid (x : ℝ) : ℝ := 1 / (1 + Real.exp (-x))

/-- tanh from linalg.ts, which delegates to the standard tanh. -/
noncomputable def tanh (x : ℝ) : ℝ := Real.tanh x

/-! ### The MinimalGatedUnit forward pass, from gru.ts -/

/-- The six parameter views bound by the MinimalGatedUnit constructor, at the
packed offsets the constructor computes. -/
structure GRUViews where
  bf : VecView
  bh : VecView
  Wf : MatView
  Wh : MatView
  Uf : MatView
  Uh : MatView

/-- The constructor's packing of the six views into the gene buffer:
bf, bh, Wf, Wh, Uf, Uh at consecutive offsets. -/
def MinimalGatedUnit.views (c : GRUConfig) : GRUViews :=
  let s := c.stateSize
  { bf := ⟨s, 0⟩
    bh := ⟨s, s⟩
    Wf := ⟨c.inputSize, s, 2 * s⟩
    Wh := ⟨c.inputSize, s, 2 * s + c.inputSize * s⟩
    Uf := ⟨s, s, 2 * s + 2 * (c.inputSize * s)⟩
    Uh := ⟨s, s, 2 * s + 2 * (c.inputSize * s) + s * s⟩ }

/-- MinimalGatedUnit.step from gru.ts, as the exact sequence of linalg
operations the source performs on temporaries; gene is the parameter buffer,
x the current input vector, h the hidden state before the step; the result is
the hidden state after the step.  In the source all reads of h happen before
the final write, so the in-place update is equivalent to this pure
function. -/
noncomputable def MinimalGatedUnit.step (c : GRUConfig) (gene : Nat → ℝ)
    (x h : Nat → ℝ) : Nat → ℝ :=
  let v := MinimalGatedUnit.views c
  let temp0 := matVecMulV v.Wf gene x
  let temp1 := matVecMulV v.Uf gene h
  let fSum := vecAddF (vecAddF temp0 temp1) (v.bf.get gene)
  let f := vecApplyF fSum sigmoid
  let temp0c := matVecMulV v.Wh gene x
  let temp2 := vecMulF f h
  let temp1c := matVecMulV v.Uh gene temp2
  let hcSum := vecAddF (vecAddF temp0c temp1c) (v.bh.get gene)
  let hc := vecApplyF hcSum tanh
  let oneMinusF := vecAddScalarF (vecScaleF f (-1)) 1
  vecAddF (vecMulF oneMinusF h) (vecMulF f hc)

/-- MinimalGatedUnit.getOutput from gru.ts: the first outputSize elements of
the hidden state, in order. -/
noncomputable def MinimalGatedUnit.getOutput (c : GRUConfig) (h : Nat → ℝ) :
    List ℝ :=
  (List.range c.outputSize).map h

/-- The forget gate equation of the specification: elementwise sigmoid of
Wf x + Uf h + bf, read through the packed parameter views. -/
noncomputable def forgetGate (c : GRUConfig) (gene : Nat → ℝ) (x h : Nat → ℝ)
    (i : Nat) : ℝ :=
  let v := MinimalGatedUnit.views c
  sigmoid ((∑ j ∈ Finset.range c.inputSize, v.Wf.get gene j i * x j)
    + (∑ j ∈ Finset.range c.stateSize, v.Uf.get gene j i * h j)
    + v.bf.get gene i)

/-- The candidate state equation of the specification: elementwise tanh of
Wh x + Uh (f times h) + bh, with f the forget gate. -/
noncomputable def candidateState (c : GRUConfig) (gene : Nat → ℝ)
    (x h : Nat → ℝ) (i : Nat) : ℝ :=
  let v := MinimalGatedUnit.views c
  tanh ((∑ j ∈ Finset.range c.inputSize, v.Wh.get gene j i * x j)
    + (∑ j ∈ Finset.range c.stateSize,
        v.Uh.get gene j i * (forgetGate c gene x h j * h j))
    + v.bh.get gene i)

/-! ### Iterated stepping from the zeroed hidden state -/

/-- Hidden state after n calls to step, starting from the zeroed hidden state
the constructor (and reset) establishes; inputs t is the input vector fed by
setInput before step number t. -/
noncomputable def hiddenAfter (c : GRUConfig) (gene : Nat → ℝ)
    (inputs : Nat → Nat → ℝ) : Nat → Nat → ℝ
  | 0 => fun _ => 0
  | t + 1 => MinimalGatedUnit.step c gene (inputs t) (hiddenAfter c gene inputs t)

/-! ### Attachment sides, from Gene.ts -/

inductive AttachmentSide where
  | top
  | bottom
  | left
  | right
deriving DecidableEq, Repr

/-! ### Attachment geometry, from BodyPart.ts -/

/-- getLocalAnchor from BodyPart.ts: the local-space anchor point on the
parent body for an attachment at fraction t along the given side.  pw and ph
are the parent's actualWidth and actualHeight; the parent's fixture is
Box(actualWidth, actualHeight), so these are the box half-extents and the
parent rectangle spans -pw..pw by -ph..ph in its local frame. -/
noncomputable def getLocalAnchor (side : AttachmentSide) (t pw ph : ℝ) : ℝ × ℝ :=
  match side with
  | .top => ((t - 0.5) * 2 * pw, -ph)
  | .bottom => ((t - 0.5) * 2 * pw, ph)
  | .left => (-pw, (t - 0.5) * 2 * ph)
  | .right => (pw, (t - 0.5) * 2 * ph)

/-- The midpoint of the chosen edge of the parent rectangle, in the parent's
local frame: the top edge is the segment from (-pw, -ph) to (pw, -ph), and so
on, matching the side naming of getLocalAnchor. -/
noncomputable def edgeCenter (side : AttachmentSide) (pw ph : ℝ) : ℝ × ℝ :=
  match side with
  | .top => (0, -ph)
  | .bottom => (0, ph)
  | .left => (-pw, 0)
  | .right => (pw, 0)

/-- The corner of the chosen edge reached at position-fraction 0. -/
noncomputable def edgeCornerAtZero (side : AttachmentSide) (pw ph : ℝ) : ℝ × ℝ :=
  match side with
  | .top => (-pw, -ph)
  | .bottom => (-pw, ph)
  | .left => (-pw, -ph)
  | .right => (pw, -ph)

/-- The corner of the chosen edge reached at position-fraction 1. -/
noncomputable def edgeCornerAtOne (side : AttachmentSide) (pw ph : ℝ) : ℝ × ℝ :=
  match side with
  | .top => (pw, -ph)
  | .bottom => (pw, ph)
  | .left => (-pw, ph)
  | .right => (pw, ph)

/-! ### Ground friction damping, from BodyPart.ts (the identical formula also
appears in Creature.ts applyGroundFriction) -/

/-- The dynamic state of one rigid body, as read and written through the
physics collaborator: linear velocity, angular velocity, mass and rotational
inertia. -/
structure PhysBody where
  vx : ℝ
  vy : ℝ
  omega : ℝ
  mass : ℝ
  inertia : ℝ

/-- The physics collaborator's contract for applyLinearImpulse at the body's
world center: linear velocity changes by impulse over mass, nothing else. -/
noncomputable def applyLinearImpulse (b : PhysBody) (ix iy : ℝ) : PhysBody :=
  { b with vx := b.vx + ix / b.mass, vy := b.vy + iy / b.mass }

/-- The physics collaborator's contract for applyAngularImpulse: angular
velocity changes by impulse over inertia, nothing else. -/
noncomputable def applyAngularImpulse (b : PhysBody) (l : ℝ) : PhysBody :=
  { b with omega := b.omega + l / b.inertia }

/-- The clamped damping factor of applyGroundFriction:
alpha = 1 - exp(-mu k dt), clamped into the unit interval. -/
noncomputable def clampedAlpha (mu k dt : ℝ) : ℝ :=
  max 0 (min 1 (1 - Real.exp (-mu * k * dt)))

/-- BodyPart.applyGroundFriction from BodyPart.ts: compute alpha from the
part's current friction mu and the scaling constant, clamp it, apply one
linear impulse mass * (v (1 - alpha) - v) at the world center, then one
angular impulse inertia * (omega (1 - alpha) - omega).  The angular velocity
is read after the linear impulse, as in the source; a linear impulse at the
center leaves it unchanged. -/
noncomputable def applyGroundFriction (b : PhysBody) (mu frictionScaling dt : ℝ) :
    PhysBody :=
  let a := clampedAlpha mu frictionScaling dt
  let vPrimeX := b.vx * (1 - a)
  let vPrimeY := b.vy * (1 - a)
  let impulseX := b.mass * (vPrimeX - b.vx)
  let impulseY := b.mass * (vPrimeY - b.vy)
  let b1 := applyLinearImpulse b impulseX impulseY
  let wPrime := b1.omega * (1 - a)
  let angularImpulse := b1.inertia * (wPrime - b1.omega)
  applyAngularImpulse b1 angularImpulse

/-! ### The tree body genome, from Gene.ts -/

/-- BodyPartGene from Gene.ts: size genes, attachment genes, the active flag
and the embedded child genes.  Field order follows the class declaration. -/
inductive BodyPartGene where
  | mk (normalizedWidth normalizedHeight : ℚ) (children : List BodyPartGene)
      (active : Bool) (attachmentSide : Option AttachmentSide)
      (attachmentPosition angleRange : ℚ)
deriving Repr

def BodyPartGene.normalizedWidth : BodyPartGene → ℚ
  | .mk w _ _ _ _ _ _ => w

def BodyPartGene.normalizedHeight : BodyPartGene → ℚ
  | .mk _ h _ _ _ _ _ => h

def BodyPartGene.children : BodyPartGene → List BodyPartGene
  | .mk _ _ cs _ _ _ _ => cs

def BodyPartGene.active : BodyPartGene → Bool
  | .mk _ _ _ a _ _ _ => a

def BodyPartGene.attachmentSide : BodyPartGene → Option AttachmentSide
  | .mk _ _ _ _ s _ _ => s

def BodyPartGene.attachmentPosition : BodyPartGene → ℚ
  | .mk _ _ _ _ _ p _ => p

def BodyPartGene.angleRange : BodyPartGene → ℚ
  | .mk _ _ _ _ _ _ r => r

/-- The clamp Math.max(lo, Math.min(hi, x)) used throughout the sources. -/
def clampQ (lo hi x : ℚ) : ℚ := max lo (min hi x)

/-- The BodyPartGene constructor from Gene.ts: clamps width and height into
0.05 .. 1.0, attachment position and angle range into 0 .. 1. -/
def mkBodyPartGene (w h : ℚ) (children : List BodyPartGene) (active : Bool)
    (side : Option AttachmentSide) (pos angle : ℚ) : BodyPartGene :=
  .mk (clampQ (5 / 100) 1 w) (clampQ (5 / 100) 1 h) children active side
    (clampQ 0 1 pos) (clampQ 0 1 angle)

/-- The direct field assignments performed on a freshly created child segment
in createRandomSegment (attachmentSide, attachmentPosition and angleRange are
written without clamping). -/
def BodyPartGene.withAttachment : BodyPartGene → AttachmentSide → ℚ → ℚ →
    BodyPartGene
  | .mk w h cs a _ _ _, s, p, ar => .mk w h cs a (some s) p ar

/-- Gene from Gene.ts: the root segment. -/
structure Gene where
  rootSegment : BodyPartGene
deriving Repr

/-- Gene.MAX_DEPTH from Gene.ts. -/
def Gene.MAX_DEPTH : Nat := 4

/-- Gene.MAX_SEGMENT_COUNT from Gene.ts (declared, and temporarily set to 8
by Genome.createRandom, but never read by the tree growth code). -/
def Gene.MAX_SEGMENT_COUNT : Nat := 20

mutual
/-- Gene.countSegmentsRecursive from Gene.ts: one for the segment itself plus
the recursive count of every active child. -/
def countSegmentsRecursive : BodyPartGene → Nat
  | .mk _ _ children _ _ _ _ => 1 + countSegmentsLoop children

/-- The for loop of countSegmentsRecursive over the child list. -/
def countSegmentsLoop : List BodyPartGene → Nat
  | [] => 0
  | c :: cs =>
      (if c.active then countSegmentsRecursive c else 0) + countSegmentsLoop cs
end

/-- Gene.countSegments from Gene.ts. -/
def Gene.countSegments (g : Gene) : Nat := countSegmentsRecursive g.rootSegment

mutual
/-- Gene.getMaxDepthRecursive from Gene.ts: the running maximum starts at the
current depth and every active child is explored one level deeper. -/
def getMaxDepthRecursive (seg : BodyPartGene) (currentDepth : Nat) : Nat :=
  match seg with
  | .mk _ _ children _ _ _ _ => maxDepthLoop children currentDepth currentDepth

/-- The for loop of getMaxDepthRecursive over the child list, carrying the
running maximum. -/
def maxDepthLoop : List BodyPartGene → Nat → Nat → Nat
  | [], _, acc => acc
  | c :: cs, d, acc =>
      maxDepthLoop cs d
        (if c.active then max acc (getMaxDepthRecursive c (d + 1)) else acc)
end

/-- Gene.getMaxDepth from Gene.ts. -/
def Gene.getMaxDepth (g : Gene) : Nat := getMaxDepthRecursive g.rootSegment 0

/-- Gene.createDefault from Gene.ts: a main body with two limbs. -/
def Gene.createDefault : Gene :=
  let mainBody := mkBodyPartGene 1 (1 / 2)
    [ mkBodyPartGene 1 (4 / 10) [] true (some .left) (1 / 2) 1
    , mkBodyPartGene 1 (4 / 10) [] true (some .right) (1 / 2) 1 ]
    true none (1 / 2) 1
  ⟨mainBody⟩

/-- The index Math.floor(r * n) used to pick a random list element. -/
def randIndex (r : ℚ) (n : Nat) : Nat := (Int.floor (r * (n : ℚ))).toNat

/-- The pair of mutually recursive growth functions of Gene.ts at one fuel
level: seg is Gene.createRandomSegment and loop is its child-creation for
loop.  The pair at fuel f + 1 calls the pair at fuel f; see
createRandomSegment below for the reading of the fuel argument. -/
structure GrowFns where
  seg : (Nat → ℚ) → Nat → Nat → Bool → BodyPartGene × Nat
  loop : (Nat → ℚ) → Nat → Nat → List AttachmentSide → Nat →
    List AttachmentSide → List BodyPartGene → List BodyPartGene × Nat

/-- The fuel-exhausted growth functions; dead code for genuine Math.random()
draw streams, see createRandomSegment. -/
def growBase : GrowFns where
  seg := fun _ k _ _ =>
    (mkBodyPartGene (15 / 100) (15 / 100) [] true none (1 / 2) 1, k)
  loop := fun _ k _ _ _ _ acc => (acc, k)

/-- One unfolding of the two mutually recursive growth functions, translated
line by line from Gene.ts.

seg is Gene.createRandomSegment: rng is the stream of Math.random() draws
and k the index of the next draw; the returned counter is the index after
all draws the call consumed.  Draws are consumed in source order: width,
height, then (below maximum depth) the child-attempt count, and per attempt
the acceptance draw followed, when accepted and a side is free, by the side,
position and angle-range draws and the recursive child creation.

loop is the child-creation for loop, threading the used sides and the
accumulated children; an attempt whose acceptance draw exceeds the
depth-decreasing child probability is skipped, and the loop breaks when no
attachment side is free. -/
def growStep (prev : GrowFns) : GrowFns where
  seg := fun rng k depth isRoot =>
    let width := 15 / 100 + rng k * (1 / 2)
    let height := 15 / 100 + rng (k + 1) * (1 / 2)
    if Gene.MAX_DEPTH ≤ depth then
      (mkBodyPartGene width height [] true none (1 / 2) 1, k + 2)
    else
      let sides : List AttachmentSide :=
        if isRoot then [.top, .bottom, .left, .right] else [.top, .bottom, .right]
      let maxChildAttempts := max 1 (4 - depth)
      let minChildAttempts := max 0 (2 - depth)
      let childAttempts := minChildAttempts
        + randIndex (rng (k + 2)) (maxChildAttempts - minChildAttempts + 1)
      let res := prev.loop rng (k + 3) depth sides childAttempts [] []
      (mkBodyPartGene width height res.1 true none (1 / 2) 1, res.2)
  loop := fun rng k depth sides attempts usedSides acc =>
    match attempts with
    | 0 => (acc, k)
    | a + 1 =>
      let childProbability := max (3 / 10 : ℚ) (1 - (depth : ℚ) * (2 / 10))
      if childProbability < rng k then
        prev.loop rng (k + 1) depth sides a usedSides acc
      else
        let availableSides := sides.filter (fun s => decide (s ∉ usedSides))
        if availableSides.isEmpty then
          (acc, k + 1)
        else
          let side := availableSides.getD
            (randIndex (rng (k + 1)) availableSides.length) .top
          let position := 3 / 10 + rng (k + 2) * (4 / 10)
          let angleRange := 1 / 2 + rng (k + 3) * (1 / 2)
          let child := prev.seg rng (k + 4) (depth + 1) false
          let childSegment := child.1.withAttachment side position angleRange
          prev.loop rng child.2 depth sides a (side :: usedSides)
            (acc ++ [childSegment])

/-- The growth functions at a given fuel, by plain recursion on the fuel. -/
def growAux (fuel : Nat) : GrowFns :=
  Nat.rec growBase (fun _ prev => growStep prev) fuel

/-- Gene.createRandomSegment from Gene.ts; see growStep for the body.  The
fuel argument is purely a structural termination device: it is decremented
on every call of the pair, the source recursion is already bounded by the
maximum-depth guard together with the finite attempt counts, and the fuel
passed by Gene.createRandom strictly exceeds the longest call chain
reachable with draws in the interval 0 to 1, so the fuel-exhausted branch is
dead code there.  Every theorem below about this function holds for every
fuel value. -/
def createRandomSegment (fuel : Nat) (rng : Nat → ℚ) (k depth : Nat)
    (isRoot : Bool) : BodyPartGene × Nat :=
  (growAux fuel).seg rng k depth isRoot

/-- The child-creation for loop of Gene.createRandomSegment; see growStep. -/
def childLoop (fuel : Nat) (rng : Nat → ℚ) (k depth : Nat)
    (sides : List AttachmentSide) (attempts : Nat)
    (usedSides : List AttachmentSide) (acc : List BodyPartGene) :
    List BodyPartGene × Nat :=
  (growAux fuel).loop rng k depth sides attempts usedSides acc

/-- The fuel Gene.createRandom hands to the growth recursion; far larger
than the longest call chain reachable with draws in 0 to 1 (at most five
tree levels of at most one segment call plus four loop steps each). -/
def growthFuel : Nat := 64

/-- Gene.createRandom from Gene.ts. -/
def Gene.createRandom (rng : Nat → ℚ) (k : Nat) : Gene × Nat :=
  let res := createRandomSegment growthFuel rng k 0 true
  (⟨res.1⟩, res.2)

/-! ### Observations on grown trees, for the random-growth claims -/

/-- Pairwise distinctness of a list of attachment sides. -/
def distinctSides : List (Option AttachmentSide) → Bool
  | [] => true
  | s :: rest => decide (s ∉ rest) && distinctSides rest

mutual
/-- Every node of the tree gives its children pairwise distinct attachment
sides, and a node reached as a non-root never has a child attached on side
left, the side by which a non-root segment connects to its own parent (the
comment in createRandomSegment reads: exclude left, that is the back). -/
def sidesOk (isRoot : Bool) : BodyPartGene → Bool
  | .mk _ _ children _ _ _ _ =>
      distinctSides (children.map BodyPartGene.attachmentSide)
        && (isRoot || children.all fun c => decide (c.attachmentSide ≠ some .left))
        && sidesOkList children

/-- sidesOk for every member of a child list, each as a non-root. -/
def sidesOkList : List BodyPartGene → Bool
  | [] => true
  | c :: cs => sidesOk false c && sidesOkList cs
end

/-- The segment-count bound a node grown at each depth satisfies: at most
max 1 (4 - depth) accepted child attempts per node and no children at depth
four give 2, 5, 16 and 65 going up from depth 3. -/
def segBound : Nat → Nat
  | 0 => 65
  | 1 => 16
  | 2 => 5
  | 3 => 2
  | _ => 1

/-- The properties established for every child created by the growth loop
under a parent at the given depth: height bounded by the remaining depth
budget, valid sides throughout the subtree, and the segment-count bound. -/
def childGood (depth : Nat) (c : BodyPartGene) : Prop :=
  (∀ d, getMaxDepthRecursive c d ≤ d + (Gene.MAX_DEPTH - (depth + 1)))
    ∧ sidesOk false c = true
    ∧ countSegmentsRecursive c ≤ segBound (depth + 1)

/-- The Math.random() contract: every draw lies in the interval from 0
inclusive to 1 exclusive. -/
def rngValid (rng : Nat → ℚ) : Prop := ∀ j, 0 ≤ rng j ∧ rng j < 1

/-- A concrete Math.random() draw stream, all values in the interval 0 to 1:
the five draws at positions 2, 9, 58, 107 and 156 request the maximal
child-attempt count at tree depths 0 and 1, the twelve other listed draws
request one accepted child attempt at depth 2, and every remaining draw is
zero, accepting every attempt and picking the first free side.  Growing from
this stream yields 4 children of the root, 3 children of each of those and
one child of each of the twelve depth-2 segments: 29 segments. -/
def cexDrawStream : Nat → ℚ := fun i =>
  if i ∈ [2, 9, 58, 107, 156] then 2 / 3
  else if i ∈ [16, 30, 44, 65, 79, 93, 114, 128, 142, 163, 177, 191] then 1 / 3
  else 0

/-- A concrete Math.random() draw stream whose draw at position 4 picks the
attachment side of the root's first child (index floor of r times 4 into the
four root sides); the draws at positions 10 and 18 reject the grandchild
attempts and every other draw is zero. -/
def sideStream (r : ℚ) : Nat → ℚ := fun i =>
  if i = 4 then r else if i = 10 ∨ i = 18 then 9 / 10 else 0

/-! ### The flat-list body genome consumed by Genome.ts

Genome.ts and Genome.test.ts address body part genes through a flat list
with explicit parent indices (BodyPartGenes, parentIndex, addBodyPartGene).
That revision of the genotype module is in src as the document appended
after the separator in src/evo-sim/src/simulation/linalg.test.ts (its
exported BodyPartGene and Gene classes), and the definitions below are
translated from it; the names carry a Flat marker to keep them apart from
the tree revision in Gene.ts above.  Genome.ts itself is translated
directly. -/

/-- BodyPartGene of the flat-list genotype revision (linalg.test.ts
appendix): normalized sizes, the active flag, an optional parent index
(none for the root), the optional attachment side, the attachment position
and the angle range. -/
structure FlatBodyPartGene where
  normalizedWidth : ℚ
  normalizedHeight : ℚ
  parentIndex : Option Nat
  active : Bool
  attachmentSide : Option AttachmentSide
  attachmentPosition : ℚ
  angleRange : ℚ
deriving DecidableEq, Repr, Inhabited

/-- The flat BodyPartGene constructor: clamps the normalized sizes into
0.05 to 1 and the attachment position and angle range into 0 to 1; parent
index, active flag and attachment side are stored as passed. -/
def mkFlatBodyPartGene (w h : ℚ) (parent : Option Nat) (active : Bool)
    (side : Option AttachmentSide) (pos angle : ℚ) : FlatBodyPartGene :=
  ⟨clampQ (5 / 100) 1 w, clampQ (5 / 100) 1 h, parent, active, side,
    clampQ 0 1 pos, clampQ 0 1 angle⟩

/-- Gene of the flat-list genotype revision: the index-addressable list of
body part genes. -/
structure FlatGene where
  BodyPartGenes : List FlatBodyPartGene
deriving DecidableEq, Repr

/-- Gene.MAX_DEPTH of the flat revision. -/
def FlatGene.MAX_DEPTH : Nat := 4

/-- Gene.MAX_SEGMENT_COUNT of the flat revision; a mutable static that
Genome.createRandom temporarily lowers to MAX_BODY_SEGMENTS, so the growth
code below takes the current cap as an explicit argument. -/
def FlatGene.MAX_SEGMENT_COUNT : Nat := 20

/-- Gene.countSegments of the flat revision: the number of genes whose
active flag is true. -/
def FlatGene.countSegments (g : FlatGene) : Nat :=
  (g.BodyPartGenes.filter (fun c => c.active)).length

/-- Gene.addBodyPartGene of the flat revision: append a new active gene
with the given parameters, built through the clamping constructor, and
return its index. -/
def FlatGene.addBodyPartGene (g : FlatGene) (w h : ℚ) (parent : Option Nat)
    (side : Option AttachmentSide) (pos angle : ℚ) : FlatGene × Nat :=
  (⟨g.BodyPartGenes ++ [mkFlatBodyPartGene w h parent true side pos angle]⟩,
    g.BodyPartGenes.length)

/-- The while loop inside Gene.getMaxDepth of the flat revision: the number
of nodes on the parent chain starting at one index (depth starts at 0 and
is incremented once per visited node, so a root-only gene has depth 1).
The fuel bounds the chase and is a structural termination device only: the
chain of a well-formed gene list visits each index at most once, so the
fuel pa.length passed below suffices.  The pair list holds
(parentIndex, active) per gene. -/
def depthFromPA (pa : List (Option Nat × Bool)) : Nat → Nat → Nat
  | 0, _ => 0
  | fuel + 1, i =>
    match (pa.getD i (none, false)).1 with
    | none => 1
    | some p => depthFromPA pa fuel p + 1

/-- Gene.getMaxDepth of the flat revision: 0 for an empty list, else the
maximum parent-chain node count over the active genes; it depends only on
the parent indices and active flags. -/
def FlatGene.getMaxDepth (g : FlatGene) : Nat :=
  let pa := g.BodyPartGenes.map (fun c => (c.parentIndex, c.active))
  ((List.range pa.length).filter (fun i => (pa.getD i (none, false)).2)).foldl
    (fun acc i => max acc (depthFromPA pa pa.length i)) 0

/-- The child-attempt for loop inside Gene.createRandom of the flat
revision, recursing on the remaining attempts: break without a draw once
the current segment cap is reached; consume the acceptance draw and skip
the attempt when it exceeds the child probability; break (acceptance draw
consumed) when every side is used; otherwise draw the side, position,
angle range, width and height in source order, append the child through
addBodyPartGene and record its index for the next level. -/
def flatChildLoop (cap : Nat) (rng : Nat → ℚ) (parentIndex : Nat)
    (sides : List AttachmentSide) (childProbability : ℚ) :
    Nat → FlatGene → List AttachmentSide → Nat → List Nat →
      FlatGene × Nat × List Nat
  | 0, gene, _, k, acc => (gene, k, acc)
  | a + 1, gene, usedSides, k, acc =>
    if cap ≤ gene.countSegments then (gene, k, acc)
    else if childProbability < rng k then
      flatChildLoop cap rng parentIndex sides childProbability a gene usedSides
        (k + 1) acc
    else
      let availableSides := sides.filter (fun s => decide (s ∉ usedSides))
      if availableSides.isEmpty then (gene, k + 1, acc)
      else
        let side := availableSides.getD
          (randIndex (rng (k + 1)) availableSides.length) .top
        let position := 3 / 10 + rng (k + 2) * (4 / 10)
        let angleRange := 1 / 2 + rng (k + 3) * (1 / 2)
        let width := 15 / 100 + rng (k + 4) * (1 / 2)
        let height := 15 / 100 + rng (k + 5) * (1 / 2)
        let res := gene.addBodyPartGene width height (some parentIndex)
          (some side) position angleRange
        flatChildLoop cap rng parentIndex sides childProbability a res.1
          (side :: usedSides) (k + 6) (acc ++ [res.2])

/-- The per-parent for loop of one level of Gene.createRandom of the flat
revision: for each parent index of the current level, choose the allowed
sides (all four for the root, left excluded otherwise), draw the attempt
count between the depth-dependent minimum and maximum, and run the
child-attempt loop, collecting the indices of the created children. -/
def flatLevelLoop (cap : Nat) (rng : Nat → ℚ) (depth : Nat) :
    List Nat → FlatGene → Nat → List Nat → FlatGene × Nat × List Nat
  | [], gene, k, acc => (gene, k, acc)
  | parentIndex :: rest, gene, k, acc =>
    let sides : List AttachmentSide := if parentIndex = 0
      then [.top, .bottom, .left, .right] else [.top, .bottom, .right]
    let maxChildAttempts := max 1 (4 - depth)
    let minChildAttempts := max 0 (2 - depth)
    let childAttempts := minChildAttempts
      + randIndex (rng k) (maxChildAttempts - minChildAttempts + 1)
    let childProbability := max (3 / 10 : ℚ) (1 - (depth : ℚ) * (2 / 10))
    let res := flatChildLoop cap rng parentIndex sides childProbability
      childAttempts gene [] (k + 1) []
    flatLevelLoop cap rng depth rest res.1 res.2.1 (acc ++ res.2.2)

/-- The level-by-level for loop of Gene.createRandom of the flat revision:
runs for at most MAX_DEPTH levels (the remaining level count is the first
argument) and stops early once a level produces no children. -/
def flatDepthLoop (cap : Nat) (rng : Nat → ℚ) :
    Nat → Nat → List Nat → FlatGene → Nat → FlatGene × Nat
  | 0, _, _, gene, k => (gene, k)
  | n + 1, depth, current, gene, k =>
    if current.isEmpty then (gene, k)
    else
      let res := flatLevelLoop cap rng depth current gene k []
      flatDepthLoop cap rng n (depth + 1) res.2.2 res.1 res.2.1

/-- Gene.createRandom of the flat revision, with the current value of the
mutable static Gene.MAX_SEGMENT_COUNT as the cap argument: draw the root's
width and height, push the root (index 0) and grow level by level.  rng is
the stream of Math.random() draws and k the index of the next draw; the
returned counter is the index after all consumed draws. -/
def FlatGene.createRandomCapped (cap : Nat) (rng : Nat → ℚ) (k : Nat) :
    FlatGene × Nat :=
  let rootWidth := 15 / 100 + rng k * (1 / 2)
  let rootHeight := 15 / 100 + rng (k + 1) * (1 / 2)
  let gene : FlatGene :=
    ⟨[mkFlatBodyPartGene rootWidth rootHeight none true none (1 / 2) 1]⟩
  flatDepthLoop cap rng FlatGene.MAX_DEPTH 0 [0] gene (k + 2)

/-- Gene.createRandom of the flat revision at the default segment cap. -/
def FlatGene.createRandom (rng : Nat → ℚ) (k : Nat) : FlatGene × Nat :=
  FlatGene.createRandomCapped FlatGene.MAX_SEGMENT_COUNT rng k

/-! ### Genome, from Genome.ts -/

/-- Genome from Genome.ts: the flat body gene, the brain parameter buffer
and the derived brain configuration. -/
structure Genome where
  bodyGene : FlatGene
  brainGene : List ℚ
  brainConfig : GRUConfig
deriving DecidableEq, Repr

/-- MAX_BODY_SEGMENTS from Genome.ts. -/
def MAX_BODY_SEGMENTS : Nat := 8

/-- Genome.calculateBrainConfig from Genome.ts; Math.max(0, n - 1) is
truncated natural subtraction. -/
def Genome.calculateBrainConfig (bodyGene : FlatGene) : GRUConfig :=
  let activeSegments := bodyGene.countSegments
  let numJoints := activeSegments - 1
  { inputSize := 1 + numJoints + activeSegments * 2
    hiddenSize := min 16 (4 + activeSegments * 2)
    outputSize := numJoints + activeSegments }

/-- Genome.createRandom from Genome.ts: grow a random body through the flat
Gene.createRandom under the temporarily lowered segment cap
MAX_BODY_SEGMENTS (the static is restored afterwards), derive the brain
config, allocate a buffer of exactly the required size and fill every entry
with (Math.random() * 2 - 1) * 0.5. -/
def Genome.createRandom (rng : Nat → ℚ) (k : Nat) : Genome :=
  let res := FlatGene.createRandomCapped MAX_BODY_SEGMENTS rng k
  let bodyGene := res.1
  let brainConfig := Genome.calculateBrainConfig bodyGene
  let brainGeneSize := getGRUGeneSize brainConfig
  let brainGene := (List.range brainGeneSize).map
    (fun i => (rng (res.2 + i) * 2 - 1) * (1 / 2))
  ⟨bodyGene, brainGene, brainConfig⟩

/-- Gene.createDefault of the flat revision: the fixed three-segment body,
root (index 0) plus the left and right limbs attached to it. -/
def FlatGene.createDefault : FlatGene :=
  ⟨[ mkFlatBodyPartGene 1 (1 / 2) none true none (1 / 2) 1
   , mkFlatBodyPartGene 1 (4 / 10) (some 0) true (some .left) (1 / 2) 1
   , mkFlatBodyPartGene 1 (4 / 10) (some 0) true (some .right) (1 / 2) 1 ]⟩

/-- Genome.createDefault from Genome.ts. -/
def Genome.createDefault (rng : Nat → ℚ) (k : Nat) : Genome :=
  let bodyGene := FlatGene.createDefault
  let brainConfig := Genome.calculateBrainConfig bodyGene
  let brainGeneSize := getGRUGeneSize brainConfig
  let brainGene := (List.range brainGeneSize).map
    (fun i => (rng (k + i) * 2 - 1) * (1 / 2))
  ⟨bodyGene, brainGene, brainConfig⟩

/-! ### Mutation, from Genome.ts -/

/-- One gene's continuous mutation inside Genome.mutateBody: each numeric
field mutates with probability mutationRate by uniform noise scaled with
mutationStrength and is re-clamped to its range; the attachment genes only
mutate when a parent index is present (for the root, their draws are not
even consumed, since the JavaScript conjunction short-circuits).  Returns
the mutated gene and the next draw index. -/
def mutateBodyGene (rate strength : ℚ) (rng : Nat → ℚ) (k : Nat)
    (g : FlatBodyPartGene) : FlatBodyPartGene × Nat :=
  let resW : ℚ × Nat := if rng k < rate
    then (clampQ (5 / 100) 1 (g.normalizedWidth + (rng (k + 1) * 2 - 1) * strength), k + 2)
    else (g.normalizedWidth, k + 1)
  let resH : ℚ × Nat := if rng resW.2 < rate
    then (clampQ (5 / 100) 1 (g.normalizedHeight + (rng (resW.2 + 1) * 2 - 1) * strength),
      resW.2 + 2)
    else (g.normalizedHeight, resW.2 + 1)
  let resP : ℚ × Nat :=
    match g.parentIndex with
    | none => (g.attachmentPosition, resH.2)
    | some _ => if rng resH.2 < rate
        then (clampQ 0 1 (g.attachmentPosition + (rng (resH.2 + 1) * 2 - 1) * strength),
          resH.2 + 2)
        else (g.attachmentPosition, resH.2 + 1)
  let resA : ℚ × Nat :=
    match g.parentIndex with
    | none => (g.angleRange, resP.2)
    | some _ => if rng resP.2 < rate
        then (clampQ 0 1 (g.angleRange + (rng (resP.2 + 1) * 2 - 1) * strength), resP.2 + 2)
        else (g.angleRange, resP.2 + 1)
  (⟨resW.1, resH.1, g.parentIndex, g.active, g.attachmentSide, resP.1, resA.1⟩,
    resA.2)

/-- The for loop of Genome.mutateBody over the gene list. -/
def mutateBodyGenes (rate strength : ℚ) (rng : Nat → ℚ) :
    List FlatBodyPartGene → Nat → List FlatBodyPartGene × Nat
  | [], k => ([], k)
  | g :: gs, k =>
    let res := mutateBodyGene rate strength rng k g
    let rest := mutateBodyGenes rate strength rng gs res.2
    (res.1 :: rest.1, rest.2)

/-- In-place deactivation of one gene (Genome.ts writes active = false on
the object; out-of-range indices never occur in the source). -/
def setInactive (genes : List FlatBodyPartGene) (i : Nat) : List FlatBodyPartGene :=
  genes.set i { genes.getD i default with active := false }

mutual
/-- Genome.deactivateDescendants from Genome.ts: scan the whole list and,
for every active gene whose parent is the given index, clear its active flag
and recurse on its index.  The fuel argument is a structural termination
device, decremented on every call; the source recursion terminates because
every nested call follows a gene that was just deactivated, so the fuel
passed by the callers below strictly exceeds the longest possible call
chain, and the theorems below hold for every fuel value. -/
def deactivateDescendants : Nat → List FlatBodyPartGene → Nat → List FlatBodyPartGene
  | 0, genes, _ => genes
  | fuel + 1, genes, p => ddLoop fuel genes p 0

/-- The scan loop of deactivateDescendants, from index i upward. -/
def ddLoop : Nat → List FlatBodyPartGene → Nat → Nat → List FlatBodyPartGene
  | 0, genes, _, _ => genes
  | fuel + 1, genes, p, i =>
    if i < genes.length then
      let g := genes.getD i default
      if g.active ∧ g.parentIndex = some p then
        ddLoop fuel (deactivateDescendants fuel (setInactive genes i) i) p (i + 1)
      else
        ddLoop fuel genes p (i + 1)
    else genes
end

/-- The fuel handed to deactivateDescendants by its callers: the scan loop
takes at most length + 1 steps per level and the nesting depth is bounded by
the number of genes, so the square strictly suffices. -/
def ddFuel (genes : List FlatBodyPartGene) : Nat :=
  (genes.length + 2) * (genes.length + 2)

/-- Genome.rebuildBrainForNewBody from Genome.ts: recompute the brain config
from the current body, allocate a buffer of exactly the required size, copy
the overlapping prefix of the old weights and fill the remaining entries
with (Math.random() * 2 - 1) * 0.5. -/
def Genome.rebuildBrainForNewBody (g : Genome) (rng : Nat → ℚ) (k : Nat) :
    Genome × Nat :=
  let newBrainConfig := Genome.calculateBrainConfig g.bodyGene
  let newBrainGeneSize := getGRUGeneSize newBrainConfig
  let copySize := min g.brainGene.length newBrainGeneSize
  let newBrainGene := (List.range newBrainGeneSize).map (fun i =>
    if i < copySize then g.brainGene.getD i 0
    else (rng (k + (i - copySize)) * 2 - 1) * (1 / 2))
  (⟨g.bodyGene, newBrainGene, newBrainConfig⟩, k + (newBrainGeneSize - copySize))

/-- Genome.addRandomBodyPart from Genome.ts: pick a random active gene as
the parent, pick an attachment side (all four for the root, three
otherwise), sample the new part's genes, append it through addBodyPartGene
and rebuild the brain for the new body. -/
def Genome.addRandomBodyPart (g : Genome) (rng : Nat → ℚ) (k : Nat) :
    Genome × Nat :=
  let activeParts := (List.range g.bodyGene.BodyPartGenes.length).filter
    (fun i => (g.bodyGene.BodyPartGenes.getD i default).active)
  if activeParts.isEmpty then (g, k)
  else
    let parentIdx := activeParts.getD (randIndex (rng k) activeParts.length) 0
    let sides : List AttachmentSide := if parentIdx = 0
      then [.top, .bottom, .left, .right] else [.top, .bottom, .right]
    let side := sides.getD (randIndex (rng (k + 1)) sides.length) .top
    let position := 3 / 10 + rng (k + 2) * (4 / 10)
    let angleRange := 1 / 2 + rng (k + 3) * (1 / 2)
    let width := 2 / 10 + rng (k + 4) * (4 / 10)
    let height := 2 / 10 + rng (k + 5) * (4 / 10)
    Genome.rebuildBrainForNewBody
      ⟨(g.bodyGene.addBodyPartGene width height (some parentIdx) (some side)
          position angleRange).1,
        g.brainGene, g.brainConfig⟩ rng (k + 6)

/-- Genome.removeRandomBodyPart from Genome.ts: pick a random non-root
active gene, clear its active flag, deactivate all its descendants and
rebuild the brain for the new body. -/
def Genome.removeRandomBodyPart (g : Genome) (rng : Nat → ℚ) (k : Nat) :
    Genome × Nat :=
  let nonRootActive := (List.range g.bodyGene.BodyPartGenes.length).filter
    (fun i => decide (i ≠ 0) && (g.bodyGene.BodyPartGenes.getD i default).active)
  if nonRootActive.isEmpty then (g, k)
  else
    let toRemove := nonRootActive.getD (randIndex (rng k) nonRootActive.length) 0
    let genes2 := setInactive g.bodyGene.BodyPartGenes toRemove
    let genes3 := deactivateDescendants (ddFuel genes2) genes2 toRemove
    Genome.rebuildBrainForNewBody ⟨⟨genes3⟩, g.brainGene, g.brainConfig⟩ rng (k + 1)

/-- Genome.mutateBody from Genome.ts: the continuous per-gene mutations,
then (each with its own acceptance draw, always consumed because the
JavaScript conjunction evaluates Math.random() first) the rare structural
add below the segment cap and the rarer structural remove keeping at least
the root. -/
def Genome.mutateBody (g : Genome) (rate strength : ℚ) (rng : Nat → ℚ)
    (k : Nat) : Genome × Nat :=
  let res := mutateBodyGenes rate strength rng g.bodyGene.BodyPartGenes k
  let g1 : Genome := ⟨⟨res.1⟩, g.brainGene, g.brainConfig⟩
  let structuralMutationRate := rate * (1 / 10)
  let res2 : Genome × Nat :=
    if rng res.2 < structuralMutationRate ∧ g1.bodyGene.countSegments < MAX_BODY_SEGMENTS
    then Genome.addRandomBodyPart g1 rng (res.2 + 1)
    else (g1, res.2 + 1)
  if rng res2.2 < structuralMutationRate * (1 / 2) ∧ 1 < res2.1.bodyGene.countSegments
  then Genome.removeRandomBodyPart res2.1 rng (res2.2 + 1)
  else (res2.1, res2.2 + 1)

/-- The for loop of Genome.mutateBrain over the brain buffer: each weight
mutates with probability mutationRate and is clamped into -5 to 5. -/
def mutateBrainList (rate strength : ℚ) (rng : Nat → ℚ) :
    List ℚ → Nat → List ℚ × Nat
  | [], k => ([], k)
  | v :: vs, k =>
    let res : ℚ × Nat := if rng k < rate
      then (clampQ (-5) 5 (v + (rng (k + 1) * 2 - 1) * strength), k + 2)
      else (v, k + 1)
    let rest := mutateBrainList rate strength rng vs res.2
    (res.1 :: rest.1, rest.2)

/-- Genome.mutateBrain from Genome.ts. -/
def Genome.mutateBrain (g : Genome) (rate strength : ℚ) (rng : Nat → ℚ)
    (k : Nat) : Genome × Nat :=
  let res := mutateBrainList rate strength rng g.brainGene k
  (⟨g.bodyGene, res.1, g.brainConfig⟩, res.2)

/-- Genome.mutate from Genome.ts: body mutation then brain mutation. -/
def Genome.mutate (g : Genome) (rate strength : ℚ) (rng : Nat → ℚ)
    (k : Nat) : Genome × Nat :=
  let res := Genome.mutateBody g rate strength rng k
  Genome.mutateBrain res.1 rate strength rng res.2

/-- Iterated mutation, threading the draw counter. -/
def mutateTimes (rate strength : ℚ) (rng : Nat → ℚ) :
    Nat → Genome × Nat → Genome × Nat
  | 0, gk => gk
  | n + 1, gk => mutateTimes rate strength rng n (Genome.mutate gk.1 rate strength rng gk.2)

/-! ### Ranges and the size invariant -/

/-- The size invariant of the genome: the brain buffer has exactly the
required parameter size for its configuration. -/
def Genome.sizeInvariant (g : Genome) : Prop :=
  g.brainGene.length = getGRUGeneSize g.brainConfig

/-- One body gene's numeric fields lie in their configured clamp ranges:
normalized sizes in 0.05 to 1, attachment position and angle range in 0 to 1
(the active flag and discrete fields are unconstrained). -/
def geneInRange (c : FlatBodyPartGene) : Prop :=
  5 / 100 ≤ c.normalizedWidth ∧ c.normalizedWidth ≤ 1
    ∧ 5 / 100 ≤ c.normalizedHeight ∧ c.normalizedHeight ≤ 1
    ∧ 0 ≤ c.attachmentPosition ∧ c.attachmentPosition ≤ 1
    ∧ 0 ≤ c.angleRange ∧ c.angleRange ≤ 1

/-- Every body gene's numeric fields lie in their configured clamp ranges. -/
def bodyInRange (g : FlatGene) : Prop :=
  ∀ c ∈ g.BodyPartGenes, geneInRange c

/-- Every brain weight lies inside the hard ceiling -5 to 5. -/
def brainInRange (b : List ℚ) : Prop := ∀ v ∈ b, -5 ≤ v ∧ v ≤ 5

/-! ### The object store, for the deep-copy claim on Genome.clone -/

/-- The mutable object store backing genome data: an arena of body part gene
objects and an arena of Float32Array buffers.  A reference is an index into
the respective arena; allocation appends. -/
structure Mem where
  genes : List FlatBodyPartGene
  bufs : List (List ℚ)
deriving DecidableEq, Repr

/-- A genome as references into the store: the body gene array holds one
reference per gene object, the brain buffer is one buffer reference. -/
structure GenomeRefs where
  geneRefs : List Nat
  brainRef : Nat
  brainConfig : GRUConfig
deriving DecidableEq, Repr

/-- Dereference one gene object. -/
def Mem.readGene (m : Mem) (r : Nat) : FlatBodyPartGene := m.genes.getD r default

/-- The flat body gene read back through the references. -/
def GenomeRefs.readBody (g : GenomeRefs) (m : Mem) : FlatGene :=
  ⟨g.geneRefs.map m.readGene⟩

/-- The brain buffer read back through its reference. -/
def GenomeRefs.readBrain (g : GenomeRefs) (m : Mem) : List ℚ :=
  m.bufs.getD g.brainRef []

/-- The fresh BodyPartGene object Genome.clone builds for one body gene: a
call of the (clamping) constructor on the original's field values. -/
def cloneGeneObj (o : FlatBodyPartGene) : FlatBodyPartGene :=
  mkFlatBodyPartGene o.normalizedWidth o.normalizedHeight o.parentIndex
    o.active o.attachmentSide o.attachmentPosition o.angleRange

/-- Genome.clone from Genome.ts, over the object store: one fresh
BodyPartGene object per body gene, built by the (clamping) constructor from
the original's field values; one fresh Float32Array holding a copy of the
brain values; a copied configuration object. -/
def Genome.cloneAlloc (g : GenomeRefs) (m : Mem) : GenomeRefs × Mem :=
  let olds := g.geneRefs.map m.readGene
  let newGenes := olds.map cloneGeneObj
  let newRefs := (List.range newGenes.length).map (fun i => m.genes.length + i)
  (⟨newRefs, m.bufs.length, g.brainConfig⟩,
    ⟨m.genes ++ newGenes, m.bufs ++ [g.readBrain m]⟩)

/-- Mutating any field of a gene object: replace the object at the
reference. -/
def Mem.writeGene (m : Mem) (r : Nat) (g : FlatBodyPartGene) : Mem :=
  ⟨m.genes.set r g, m.bufs⟩

/-- Mutating one cell of a buffer. -/
def Mem.writeBuf (m : Mem) (r j : Nat) (v : ℚ) : Mem :=
  ⟨m.genes, m.bufs.set r ((m.bufs.getD r []).set j v)⟩

end EvoSim

namespace EvoSim

/-! ### Helper lemmas: activation function ranges -/

theorem sigmoid_pos (x : ℝ) : 0 < sigmoid x := by
  unfold sigmoid
  positivity

theorem sigmoid_lt_one (x : ℝ) : sigmoid x < 1 := by
  unfold sigmoid
  rw [div_lt_one (by positivity)]
  linarith [Real.exp_pos (-x)]

theorem tanh_lt_one (x : ℝ) : tanh x < 1 := by
  unfold tanh
  rw [Real.tanh_eq_sinh_div_cosh, div_lt_one (Real.cosh_pos x)]
  have h := Real.cosh_sub_sinh x
  have := Real.exp_pos (-x)
  linarith

theorem neg_one_lt_tanh (x : ℝ) : -1 < tanh x := by
  unfold tanh
  rw [Real.tanh_eq_sinh_div_cosh, lt_div_iff₀ (Real.cosh_pos x)]
  have h := Real.sinh_add_cosh x
  have := Real.exp_pos x
  linarith

/-- The elementwise step formula, as an equation on each coordinate. -/
theorem step_apply (c : GRUConfig) (gene x h : Nat → ℝ) (i : Nat) :
    MinimalGatedUnit.step c gene x h i
      = (1 - forgetGate c gene x h i) * h i
        + forgetGate c gene x h i * candidateState c gene x h i := by
  simp only [MinimalGatedUnit.step, MinimalGatedUnit.views, forgetGate,
    candidateState, vecAddF, vecMulF, vecScaleF, vecAddScalarF, vecApplyF,
    matVecMulV, MatView.get, VecView.get]
  ring

/-- The new hidden state stays strictly inside the open interval (-1, 1)
coordinatewise whenever the previous one does. -/
theorem step_preserves_bounds (c : GRUConfig) (gene x h : Nat → ℝ)
    (hb : ∀ i, -1 < h i ∧ h i < 1) :
    ∀ i, -1 < MinimalGatedUnit.step c gene x h i
      ∧ MinimalGatedUnit.step c gene x h i < 1 := by
  intro i
  rw [step_apply]
  have hf0 := sigmoid_pos ((∑ j ∈ Finset.range c.inputSize,
      (MinimalGatedUnit.views c).Wf.get gene j i * x j)
    + (∑ j ∈ Finset.range c.stateSize,
      (MinimalGatedUnit.views c).Uf.get gene j i * h j)
    + (MinimalGatedUnit.views c).bf.get gene i)
  have hf1 := sigmoid_lt_one ((∑ j ∈ Finset.range c.inputSize,
      (MinimalGatedUnit.views c).Wf.get gene j i * x j)
    + (∑ j ∈ Finset.range c.stateSize,
      (MinimalGatedUnit.views c).Uf.get gene j i * h j)
    + (MinimalGatedUnit.views c).bf.get gene i)
  have hf0' : 0 < forgetGate c gene x h i := hf0
  have hf1' : forgetGate c gene x h i < 1 := hf1
  have hc1 : candidateState c gene x h i < 1 := tanh_lt_one _
  have hc0 : -1 < candidateState c gene x h i := neg_one_lt_tanh _
  obtain ⟨hh0, hh1⟩ := hb i
  constructor <;> nlinarith

/-- After any number of steps from the zeroed state, every hidden coordinate
is strictly inside (-1, 1). -/
theorem hiddenAfter_bounds (c : GRUConfig) (gene : Nat → ℝ)
    (inputs : Nat → Nat → ℝ) (n : Nat) :
    ∀ i, -1 < hiddenAfter c gene inputs n i ∧ hiddenAfter c gene inputs n i < 1 := by
  induction n with
  | zero => intro i; constructor <;> norm_num [hiddenAfter]
  | succ t ih =>
      intro i
      exact step_preserves_bounds c gene (inputs t) _ ih i

/-! ### Claim theorems for the controller -/

/-- C1: one call to step() updates the hidden state exactly by the minimal
gated unit equations: forget gate f = sigmoid(Wf x + Uf h + bf) elementwise,
candidate hc = tanh(Wh x + Uh (f h) + bh) elementwise, and new hidden state
(1 - f) h + f hc, all read through the six packed parameter views; and
getOutput() afterwards returns the first outputSize elements of the new
hidden state. -/
theorem C1_step_is_mgu_update (c : GRUConfig) (gene x h : Nat → ℝ) :
    (∀ i, MinimalGatedUnit.step c gene x h i
      = (1 - forgetGate c gene x h i) * h i
        + forgetGate c gene x h i * candidateState c gene x h i)
    ∧ MinimalGatedUnit.getOutput c (MinimalGatedUnit.step c gene x h)
      = (List.range c.outputSize).map (fun i =>
          (1 - forgetGate c gene x h i) * h i
            + forgetGate c gene x h i * candidateState c gene x h i) := by
  refine ⟨step_apply c gene x h, ?_⟩
  unfold MinimalGatedUnit.getOutput
  exact List.map_congr_left fun i _ => step_apply c gene x h i

/-- C2: getGRUGeneSize equals two bias vectors plus two input-weight matrices
plus two state-weight matrices over stateSize = outputSize + hiddenSize; the
MinimalGatedUnit constructor succeeds on a buffer of exactly that length and
fails on any buffer one element shorter. -/
theorem C2_gene_size_and_construction (c : GRUConfig) :
    getGRUGeneSize c
      = 2 * c.stateSize + 2 * (c.inputSize * c.stateSize)
        + 2 * (c.stateSize * c.stateSize)
    ∧ MinimalGatedUnit.constructorOk c (getGRUGeneSize c) = true
    ∧ ∀ len : Nat, len + 1 = getGRUGeneSize c →
        MinimalGatedUnit.constructorOk c len = false := by
  refine ⟨?_, ?_, ?_⟩
  · unfold getGRUGeneSize
    ring
  · unfold MinimalGatedUnit.constructorOk getGRUGeneSize getGRUStateSize
      shapeVecOk shapeMatOk
    simp only [Bool.and_eq_true, decide_eq_true_eq]
    omega
  · intro len hlen
    unfold MinimalGatedUnit.constructorOk
    have h1 : decide (getGRUGeneSize c ≤ len) = false := by
      simp only [decide_eq_false_iff_not]
      omega
    simp [h1]

theorem C2_witness :
    getGRUGeneSize ⟨2, 3, 2⟩ = 80
    ∧ MinimalGatedUnit.constructorOk ⟨2, 3, 2⟩ 80 = true
    ∧ MinimalGatedUnit.constructorOk ⟨2, 3, 2⟩ 79 = false := by
  obtain ⟨h1, h2, h3⟩ := C2_gene_size_and_construction ⟨2, 3, 2⟩
  refine ⟨by decide, ?_, ?_⟩
  · have : getGRUGeneSize ⟨2, 3, 2⟩ = 80 := by decide
    rwa [this] at h2
  · exact h3 79 (by decide)

/-- C3: from the zeroed hidden state, for every parameter buffer, every input
sequence and every number of steps, every value returned by getOutput() lies
strictly within (-1, 1). -/
theorem C3_output_bounded (c : GRUConfig) (gene : Nat → ℝ)
    (inputs : Nat → Nat → ℝ) (n : Nat) (y : ℝ)
    (hy : y ∈ MinimalGatedUnit.getOutput c (hiddenAfter c gene inputs n)) :
    -1 < y ∧ y < 1 := by
  unfold MinimalGatedUnit.getOutput at hy
  obtain ⟨i, _, rfl⟩ := List.mem_map.mp hy
  exact hiddenAfter_bounds c gene inputs n i

theorem C3_witness : -1 < (0 : ℝ) ∧ (0 : ℝ) < 1 :=
  C3_output_bounded ⟨0, 0, 1⟩ (fun _ => 0) (fun _ _ => 0) 0 0
    (by simp [MinimalGatedUnit.getOutput, hiddenAfter])

/-! ### Claim theorems for attachment geometry and ground friction -/

/-- C8: for every side and every parent half-extent pair, getLocalAnchor at
position-fraction one half is the center of the chosen edge of the parent
rectangle, and at fractions zero and one it is the two respective corners of
that edge, whose coordinate along the edge is plus or minus the parent
half-extent. -/
theorem C8_local_anchor_geometry (side : AttachmentSide) (pw ph : ℝ) :
    getLocalAnchor side (1 / 2) pw ph = edgeCenter side pw ph
    ∧ getLocalAnchor side 0 pw ph = edgeCornerAtZero side pw ph
    ∧ getLocalAnchor side 1 pw ph = edgeCornerAtOne side pw ph := by
  cases side <;>
    refine ⟨?_, ?_, ?_⟩ <;>
      simp only [getLocalAnchor, edgeCenter, edgeCornerAtZero, edgeCornerAtOne,
        Prod.mk.injEq] <;>
      constructor <;> norm_num

/-- C9: applyGroundFriction computes the clamped damping factor
alpha = clamp(1 - exp(-mu k dt), 0, 1) and applies exactly one linear impulse
mass * (v (1 - alpha) - v) at the world center followed by exactly one
angular impulse inertia * (omega (1 - alpha) - omega), so that under the
impulse contract the post-impulse velocities are v (1 - alpha) and
omega (1 - alpha). -/
theorem C9_ground_friction (b : PhysBody) (mu k dt : ℝ)
    (hm : b.mass ≠ 0) (hI : b.inertia ≠ 0) :
    applyGroundFriction b mu k dt
      = applyAngularImpulse
          (applyLinearImpulse b
            (b.mass * (b.vx * (1 - clampedAlpha mu k dt) - b.vx))
            (b.mass * (b.vy * (1 - clampedAlpha mu k dt) - b.vy)))
          (b.inertia * (b.omega * (1 - clampedAlpha mu k dt) - b.omega))
    ∧ (applyGroundFriction b mu k dt).vx = b.vx * (1 - clampedAlpha mu k dt)
    ∧ (applyGroundFriction b mu k dt).vy = b.vy * (1 - clampedAlpha mu k dt)
    ∧ (applyGroundFriction b mu k dt).omega
        = b.omega * (1 - clampedAlpha mu k dt) := by
  unfold applyGroundFriction applyLinearImpulse applyAngularImpulse
  refine ⟨rfl, ?_, ?_, ?_⟩ <;> (simp only []; field_simp; try ring)

theorem C9_witness :
    (applyGroundFriction ⟨2, 3, 5, 1, 1⟩ 0 1 1).omega = 5 := by
  have h := (C9_ground_friction ⟨2, 3, 5, 1, 1⟩ 0 1 1
    (by norm_num) (by norm_num)).2.2.2
  simpa [clampedAlpha, Real.exp_zero] using h

/-! ### Unfolding equations for the fueled growth functions -/

theorem createRandomSegment_zero (rng : Nat → ℚ) (k depth : Nat) (isRoot : Bool) :
    createRandomSegment 0 rng k depth isRoot
      = (mkBodyPartGene (15 / 100) (15 / 100) [] true none (1 / 2) 1, k) := rfl

theorem createRandomSegment_succ (fuel : Nat) (rng : Nat → ℚ) (k depth : Nat)
    (isRoot : Bool) :
    createRandomSegment (fuel + 1) rng k depth isRoot =
      if Gene.MAX_DEPTH ≤ depth then
        (mkBodyPartGene (15 / 100 + rng k * (1 / 2)) (15 / 100 + rng (k + 1) * (1 / 2))
          [] true none (1 / 2) 1, k + 2)
      else
        (mkBodyPartGene (15 / 100 + rng k * (1 / 2)) (15 / 100 + rng (k + 1) * (1 / 2))
            (childLoop fuel rng (k + 3) depth
              (if isRoot then [.top, .bottom, .left, .right] else [.top, .bottom, .right])
              (max 0 (2 - depth)
                + randIndex (rng (k + 2)) (max 1 (4 - depth) - max 0 (2 - depth) + 1))
              [] []).1
            true none (1 / 2) 1,
          (childLoop fuel rng (k + 3) depth
              (if isRoot then [.top, .bottom, .left, .right] else [.top, .bottom, .right])
              (max 0 (2 - depth)
                + randIndex (rng (k + 2)) (max 1 (4 - depth) - max 0 (2 - depth) + 1))
              [] []).2) := rfl

theorem childLoop_fuel_zero (rng : Nat → ℚ) (k depth : Nat)
    (sides : List AttachmentSide) (attempts : Nat) (used : List AttachmentSide)
    (acc : List BodyPartGene) :
    childLoop 0 rng k depth sides attempts used acc = (acc, k) := rfl

theorem childLoop_attempts_zero (fuel : Nat) (rng : Nat → ℚ) (k depth : Nat)
    (sides : List AttachmentSide) (used : List AttachmentSide)
    (acc : List BodyPartGene) :
    childLoop fuel rng k depth sides 0 used acc = (acc, k) := by
  cases fuel <;> rfl

theorem childLoop_succ (fuel : Nat) (rng : Nat → ℚ) (k depth : Nat)
    (sides : List AttachmentSide) (a : Nat) (used : List AttachmentSide)
    (acc : List BodyPartGene) :
    childLoop (fuel + 1) rng k depth sides (a + 1) used acc =
      if max (3 / 10 : ℚ) (1 - (depth : ℚ) * (2 / 10)) < rng k then
        childLoop fuel rng (k + 1) depth sides a used acc
      else if (sides.filter (fun s => decide (s ∉ used))).isEmpty then
        (acc, k + 1)
      else
        childLoop fuel rng (createRandomSegment fuel rng (k + 4) (depth + 1) false).2
          depth sides a
          ((sides.filter (fun s => decide (s ∉ used))).getD
              (randIndex (rng (k + 1)) (sides.filter (fun s => decide (s ∉ used))).length)
              .top
            :: used)
          (acc ++ [(createRandomSegment fuel rng (k + 4) (depth + 1) false).1.withAttachment
            ((sides.filter (fun s => decide (s ∉ used))).getD
              (randIndex (rng (k + 1)) (sides.filter (fun s => decide (s ∉ used))).length)
              .top)
            (3 / 10 + rng (k + 2) * (4 / 10)) (1 / 2 + rng (k + 3) * (1 / 2))]) := rfl

/-! ### Small computation lemmas on gene trees -/

theorem mkBodyPartGene_children (w h : ℚ) (cs : List BodyPartGene) (a : Bool)
    (s : Option AttachmentSide) (p q : ℚ) :
    (mkBodyPartGene w h cs a s p q).children = cs := rfl

theorem mkBodyPartGene_active (w h : ℚ) (cs : List BodyPartGene) (a : Bool)
    (s : Option AttachmentSide) (p q : ℚ) :
    (mkBodyPartGene w h cs a s p q).active = a := rfl

theorem countSegmentsRecursive_mkGene (w h : ℚ) (cs : List BodyPartGene)
    (a : Bool) (s : Option AttachmentSide) (p q : ℚ) :
    countSegmentsRecursive (mkBodyPartGene w h cs a s p q)
      = 1 + countSegmentsLoop cs := rfl

theorem getMaxDepthRecursive_mkGene (w h : ℚ) (cs : List BodyPartGene)
    (a : Bool) (s : Option AttachmentSide) (p q : ℚ) (d : Nat) :
    getMaxDepthRecursive (mkBodyPartGene w h cs a s p q) d
      = maxDepthLoop cs d d := rfl

theorem sidesOk_mkGene (isRoot : Bool) (w h : ℚ) (cs : List BodyPartGene)
    (a : Bool) (s : Option AttachmentSide) (p q : ℚ) :
    sidesOk isRoot (mkBodyPartGene w h cs a s p q)
      = (distinctSides (cs.map BodyPartGene.attachmentSide)
          && (isRoot || cs.all fun c => decide (c.attachmentSide ≠ some .left))
          && sidesOkList cs) := rfl

theorem withAttachment_count (c : BodyPartGene) (s : AttachmentSide) (p a : ℚ) :
    countSegmentsRecursive (c.withAttachment s p a) = countSegmentsRecursive c := by
  cases c
  rfl

theorem withAttachment_depth (c : BodyPartGene) (s : AttachmentSide) (p a : ℚ)
    (d : Nat) :
    getMaxDepthRecursive (c.withAttachment s p a) d = getMaxDepthRecursive c d := by
  cases c
  rfl

theorem withAttachment_sidesOk (c : BodyPartGene) (s : AttachmentSide) (p a : ℚ) :
    sidesOk false (c.withAttachment s p a) = sidesOk false c := by
  cases c
  rfl

theorem withAttachment_side (c : BodyPartGene) (s : AttachmentSide) (p a : ℚ) :
    (c.withAttachment s p a).attachmentSide = some s := by
  cases c
  rfl

theorem distinctSides_append (l : List (Option AttachmentSide))
    (x : Option AttachmentSide) :
    distinctSides (l ++ [x]) = true ↔ distinctSides l = true ∧ x ∉ l := by
  induction l with
  | nil => simp [distinctSides]
  | cons s rest ih =>
      constructor
      · intro h
        have h' : (s ∉ rest ++ [x]) ∧ distinctSides (rest ++ [x]) = true := by
          simpa [distinctSides] using h
        obtain ⟨hs, hrec⟩ := h'
        obtain ⟨hd, hx⟩ := ih.mp hrec
        have hsr : s ∉ rest := fun hm => hs (List.mem_append.mpr (Or.inl hm))
        have hsx : s ≠ x := fun he => hs (List.mem_append.mpr (Or.inr (by simp [he])))
        constructor
        · simpa [distinctSides] using And.intro hsr hd
        · intro hm
          rcases List.mem_cons.mp hm with he | hm2
          · exact hsx he.symm
          · exact hx hm2
      · intro hpair
        obtain ⟨h1, h2⟩ := hpair
        have h1' : (s ∉ rest) ∧ distinctSides rest = true := by
          simpa [distinctSides] using h1
        have hx : x ∉ rest := fun hm => h2 (List.mem_cons.mpr (Or.inr hm))
        have hxs : x ≠ s := fun he => h2 (List.mem_cons.mpr (Or.inl he))
        have hs : s ∉ rest ++ [x] := by
          intro hm
          rcases List.mem_append.mp hm with hm2 | hm2
          · exact h1'.1 hm2
          · have he : s = x := by simpa using hm2
            exact hxs he.symm
        simpa [distinctSides] using And.intro hs (ih.mpr (And.intro h1'.2 hx))

theorem sidesOkList_iff (cs : List BodyPartGene) :
    sidesOkList cs = true ↔ ∀ c ∈ cs, sidesOk false c = true := by
  induction cs with
  | nil => simp [sidesOkList]
  | cons c rest ih => simp [sidesOkList, ih]

theorem countSegmentsLoop_append (l : List BodyPartGene) (c : BodyPartGene) :
    countSegmentsLoop (l ++ [c])
      = countSegmentsLoop l + (if c.active then countSegmentsRecursive c else 0) := by
  induction l with
  | nil => simp [countSegmentsLoop]
  | cons x rest ih =>
      have h1 : countSegmentsLoop ((x :: rest) ++ [c])
          = (if x.active then countSegmentsRecursive x else 0)
            + countSegmentsLoop (rest ++ [c]) := rfl
      have h2 : countSegmentsLoop (x :: rest)
          = (if x.active then countSegmentsRecursive x else 0)
            + countSegmentsLoop rest := rfl
      rw [h1, h2, ih]
      omega

theorem maxDepthLoop_le (cs : List BodyPartGene) (d : Nat) (X : Nat) :
    ∀ acc, acc ≤ X →
      (∀ c ∈ cs, c.active = true → getMaxDepthRecursive c (d + 1) ≤ X) →
      maxDepthLoop cs d acc ≤ X := by
  induction cs with
  | nil => intro acc hacc _; simpa [maxDepthLoop] using hacc
  | cons c rest ih =>
      intro acc hacc hcs
      simp only [maxDepthLoop]
      apply ih
      · by_cases hc : c.active
        · simp only [hc, if_true]
          exact max_le hacc (hcs c (by simp) hc)
        · simpa [hc] using hacc
      · intro x hx hax
        exact hcs x (by simp [hx]) hax

theorem randIndex_lt (r : ℚ) (n : Nat) (h0 : 0 ≤ r) (h1 : r < 1) (hn : 0 < n) :
    randIndex r n < n := by
  unfold randIndex
  have hrn : r * (n : ℚ) < (n : ℚ) := by
    have : (0 : ℚ) < (n : ℚ) := by exact_mod_cast hn
    nlinarith
  have hfl : Int.floor (r * (n : ℚ)) < (n : ℤ) := by
    rw [Int.floor_lt]
    exact_mod_cast hrn
  have hnn : (0 : ℤ) ≤ Int.floor (r * (n : ℚ)) := by
    apply Int.floor_nonneg.mpr
    positivity
  omega

theorem one_le_segBound (d : Nat) : 1 ≤ segBound d := by
  rcases d with _ | _ | _ | _ | d <;> simp [segBound]

theorem segBound_step (d : Nat) (hd : d < 4) :
    1 + (4 - d) * segBound (d + 1) ≤ segBound d := by
  interval_cases d <;> simp [segBound]

/-- The central invariant of the random growth: for every fuel, every segment
grown at a given depth has height bounded by the remaining depth budget,
valid attachment sides throughout, and at most segBound depth segments; and
the child loop preserves the corresponding invariants of its accumulator. -/
theorem grow_good (fuel : Nat) :
    (∀ (rng : Nat → ℚ) (k depth : Nat) (isRoot : Bool), rngValid rng →
      (∀ d, getMaxDepthRecursive (createRandomSegment fuel rng k depth isRoot).1 d
          ≤ d + (Gene.MAX_DEPTH - depth))
      ∧ sidesOk isRoot (createRandomSegment fuel rng k depth isRoot).1 = true
      ∧ countSegmentsRecursive (createRandomSegment fuel rng k depth isRoot).1
          ≤ segBound depth)
    ∧ (∀ (rng : Nat → ℚ) (k depth : Nat) (sides : List AttachmentSide)
        (attempts : Nat) (used : List AttachmentSide) (acc : List BodyPartGene),
        rngValid rng →
      (∀ c ∈ acc, childGood depth c) →
      distinctSides (acc.map BodyPartGene.attachmentSide) = true →
      (∀ c ∈ acc, ∀ s, c.attachmentSide = some s → s ∈ used) →
      (∀ c ∈ (childLoop fuel rng k depth sides attempts used acc).1, childGood depth c)
      ∧ distinctSides ((childLoop fuel rng k depth sides attempts used acc).1.map
          BodyPartGene.attachmentSide) = true
      ∧ (∀ c ∈ (childLoop fuel rng k depth sides attempts used acc).1, ∀ s,
          c.attachmentSide = some s → s ∈ sides ∨ s ∈ used)
      ∧ countSegmentsLoop (childLoop fuel rng k depth sides attempts used acc).1
          ≤ countSegmentsLoop acc + attempts * segBound (depth + 1)) := by
  induction fuel with
  | zero =>
      constructor
      · intro rng k depth isRoot _
        rw [createRandomSegment_zero]
        refine ⟨?_, ?_, ?_⟩
        · intro d
          rw [getMaxDepthRecursive_mkGene]
          have : maxDepthLoop [] d d = d := rfl
          omega
        · rw [sidesOk_mkGene]
          simp [distinctSides, sidesOkList]
        · rw [countSegmentsRecursive_mkGene]
          have : countSegmentsLoop [] = 0 := rfl
          have h1 := one_le_segBound depth
          omega
      · intro rng k depth sides attempts used acc _ hacc hdist hused
        rw [childLoop_fuel_zero]
        exact ⟨hacc, hdist, fun c hc s hs => Or.inr (hused c hc s hs),
          Nat.le_add_right _ _⟩
  | succ fuel ih =>
      obtain ⟨ihSeg, ihLoop⟩ := ih
      have hM : Gene.MAX_DEPTH = 4 := rfl
      constructor
      · intro rng k depth isRoot hrng
        rw [createRandomSegment_succ]
        by_cases hdep : Gene.MAX_DEPTH ≤ depth
        · rw [if_pos hdep]
          refine ⟨?_, ?_, ?_⟩
          · intro d
            rw [getMaxDepthRecursive_mkGene]
            have : maxDepthLoop [] d d = d := rfl
            omega
          · rw [sidesOk_mkGene]
            simp [distinctSides, sidesOkList]
          · rw [countSegmentsRecursive_mkGene]
            have : countSegmentsLoop [] = 0 := rfl
            have h1 := one_le_segBound depth
            omega
        · rw [if_neg hdep]
          obtain ⟨hA, hB, hC, hD⟩ := ihLoop rng (k + 3) depth
            (if isRoot then [.top, .bottom, .left, .right] else [.top, .bottom, .right])
            (max 0 (2 - depth)
              + randIndex (rng (k + 2)) (max 1 (4 - depth) - max 0 (2 - depth) + 1))
            [] [] hrng (by simp) (by simp [distinctSides]) (by simp)
          refine ⟨?_, ?_, ?_⟩
          · intro d
            rw [getMaxDepthRecursive_mkGene]
            apply maxDepthLoop_le _ _ _ _ (by omega)
            intro c hc _
            have hc1 := (hA c hc).1 (d + 1)
            omega
          · rw [sidesOk_mkGene]
            have h3 : sidesOkList (childLoop fuel rng (k + 3) depth
                (if isRoot then [.top, .bottom, .left, .right] else [.top, .bottom, .right])
                (max 0 (2 - depth)
                  + randIndex (rng (k + 2)) (max 1 (4 - depth) - max 0 (2 - depth) + 1))
                [] []).1 = true :=
              (sidesOkList_iff _).mpr (fun c hc => (hA c hc).2.1)
            have h2 : (isRoot || (childLoop fuel rng (k + 3) depth
                (if isRoot then [.top, .bottom, .left, .right] else [.top, .bottom, .right])
                (max 0 (2 - depth)
                  + randIndex (rng (k + 2)) (max 1 (4 - depth) - max 0 (2 - depth) + 1))
                [] []).1.all fun c => decide (c.attachmentSide ≠ some .left)) = true := by
              cases isRoot
              · simp only [Bool.false_or, List.all_eq_true]
                intro c hc
                rw [decide_eq_true_eq]
                intro hceq
                rcases hC c hc AttachmentSide.left hceq with hin | hin
                · simp at hin
                · simp at hin
              · simp
            rw [hB, h2, h3]
            rfl
          · rw [countSegmentsRecursive_mkGene]
            have h0 := (hrng (k + 2)).1
            have h1 := (hrng (k + 2)).2
            have hspan : 0 < max 1 (4 - depth) - max 0 (2 - depth) + 1 := by omega
            have hri := randIndex_lt (rng (k + 2)) _ h0 h1 hspan
            have hattle : max 0 (2 - depth)
                + randIndex (rng (k + 2)) (max 1 (4 - depth) - max 0 (2 - depth) + 1)
                ≤ 4 - depth := by omega
            have hstep := segBound_step depth (by omega)
            have hmul := Nat.mul_le_mul_right (segBound (depth + 1)) hattle
            have hz : countSegmentsLoop ([] : List BodyPartGene) = 0 := rfl
            omega
      · intro rng k depth sides attempts used acc hrng hacc hdist hused
        cases attempts with
        | zero =>
            rw [childLoop_attempts_zero]
            exact ⟨hacc, hdist, fun c hc s hs => Or.inr (hused c hc s hs),
              Nat.le_add_right _ _⟩
        | succ a =>
            rw [childLoop_succ]
            by_cases hskip : max (3 / 10 : ℚ) (1 - (depth : ℚ) * (2 / 10)) < rng k
            · rw [if_pos hskip]
              obtain ⟨hA, hB, hC, hD⟩ := ihLoop rng (k + 1) depth sides a used acc
                hrng hacc hdist hused
              refine ⟨hA, hB, hC, ?_⟩
              have hmul : a * segBound (depth + 1) ≤ (a + 1) * segBound (depth + 1) :=
                Nat.mul_le_mul_right _ (by omega)
              omega
            · rw [if_neg hskip]
              by_cases hemp : (sides.filter (fun s => decide (s ∉ used))).isEmpty
              · rw [if_pos hemp]
                exact ⟨hacc, hdist, fun c hc s hs => Or.inr (hused c hc s hs),
                  Nat.le_add_right _ _⟩
              · rw [if_neg hemp]
                set avail := sides.filter (fun s => decide (s ∉ used)) with havail
                set newSide := avail.getD
                  (randIndex (rng (k + 1)) avail.length) AttachmentSide.top with hns
                set rawChild := createRandomSegment fuel rng (k + 4) (depth + 1) false
                  with hrc
                set newChild := rawChild.1.withAttachment newSide
                  (3 / 10 + rng (k + 2) * (4 / 10)) (1 / 2 + rng (k + 3) * (1 / 2))
                  with hnc
                have hlen : 0 < avail.length := by
                  cases h : avail with
                  | nil => exact absurd (by rw [h]; rfl) hemp
                  | cons x xs => simp [h]
                have hidx : randIndex (rng (k + 1)) avail.length < avail.length :=
                  randIndex_lt _ _ (hrng (k + 1)).1 (hrng (k + 1)).2 hlen
                have hmem : newSide ∈ avail := by
                  rw [hns, List.getD_eq_getElem?_getD, List.getElem?_eq_getElem hidx,
                    Option.getD_some]
                  exact List.getElem_mem hidx
                have hmem' : newSide ∈ sides ∧ newSide ∉ used := by
                  have hmf := List.mem_filter.mp (havail ▸ hmem)
                  exact ⟨hmf.1, by simpa using hmf.2⟩
                obtain ⟨hch1, hch2, hch3⟩ := ihSeg rng (k + 4) (depth + 1) false hrng
                have hgood : childGood depth newChild := by
                  refine ⟨?_, ?_, ?_⟩
                  · intro d
                    rw [hnc, withAttachment_depth, hrc]
                    exact hch1 d
                  · rw [hnc, withAttachment_sidesOk, hrc]
                    exact hch2
                  · rw [hnc, withAttachment_count, hrc]
                    exact hch3
                have hacc' : ∀ c ∈ acc ++ [newChild], childGood depth c := by
                  intro c hc
                  rcases List.mem_append.mp hc with h | h
                  · exact hacc c h
                  · have he := List.mem_singleton.mp h
                    rw [he]
                    exact hgood
                have hdist' : distinctSides ((acc ++ [newChild]).map
                    BodyPartGene.attachmentSide) = true := by
                  rw [List.map_append]
                  have hm1 : ([newChild]).map BodyPartGene.attachmentSide
                      = [some newSide] := by
                    simp [hnc, withAttachment_side]
                  rw [hm1]
                  refine (distinctSides_append _ _).mpr ⟨hdist, ?_⟩
                  intro hmm
                  obtain ⟨c, hcmem, hceq⟩ := List.mem_map.mp hmm
                  exact hmem'.2 (hused c hcmem newSide hceq)
                have hused' : ∀ c ∈ acc ++ [newChild], ∀ s,
                    c.attachmentSide = some s → s ∈ newSide :: used := by
                  intro c hc s hs
                  rcases List.mem_append.mp hc with h | h
                  · exact List.mem_cons.mpr (Or.inr (hused c h s hs))
                  · have he := List.mem_singleton.mp h
                    rw [he, hnc, withAttachment_side] at hs
                    have : newSide = s := Option.some.inj hs
                    rw [← this]
                    exact List.mem_cons.mpr (Or.inl rfl)
                obtain ⟨hA, hB, hC, hD⟩ := ihLoop rng rawChild.2 depth sides a
                  (newSide :: used) (acc ++ [newChild]) hrng hacc' hdist' hused'
                refine ⟨hA, hB, ?_, ?_⟩
                · intro c hc s hs
                  rcases hC c hc s hs with h | h
                  · exact Or.inl h
                  · rcases List.mem_cons.mp h with he | hu
                    · rw [he]
                      exact Or.inl hmem'.1
                    · exact Or.inr hu
                · have hcnt : countSegmentsLoop (acc ++ [newChild])
                      ≤ countSegmentsLoop acc + segBound (depth + 1) := by
                    rw [countSegmentsLoop_append]
                    have hcc : (if newChild.active then countSegmentsRecursive newChild
                        else 0) ≤ segBound (depth + 1) := by
                      by_cases ha : newChild.active
                      · rw [if_pos ha, hnc, withAttachment_count, hrc]
                        exact hch3
                      · rw [if_neg ha]
                        exact Nat.zero_le _
                    omega
                  have hmul : segBound (depth + 1) + a * segBound (depth + 1)
                      = (a + 1) * segBound (depth + 1) := by ring
                  omega


/-- The stream values of sideStream lie in the Math.random range whenever the
chosen side draw does. -/
theorem sideStream_valid (r : ℚ) (h0 : 0 ≤ r) (h1 : r < 1) :
    rngValid (sideStream r) := by
  intro j
  unfold sideStream
  split_ifs <;> constructor <;> first | assumption | norm_num

/-- The cexDrawStream values lie in the Math.random range. -/
theorem cexDrawStream_valid : rngValid cexDrawStream := by
  intro j
  unfold cexDrawStream
  split_ifs <;> norm_num

/-- The child-loop count as the sum of the recursive counts of the active
children. -/
theorem countSegmentsLoop_eq_sum (cs : List BodyPartGene) :
    countSegmentsLoop cs
      = ((cs.filter (fun c => c.active)).map countSegmentsRecursive).sum := by
  induction cs with
  | nil => rfl
  | cons c rest ih =>
      have h1 : countSegmentsLoop (c :: rest)
          = (if c.active then countSegmentsRecursive c else 0)
            + countSegmentsLoop rest := rfl
      rw [h1, ih, List.filter_cons]
      by_cases hc : c.active
      · simp [hc]
      · simp [hc]

/-! ### Claim theorems for the tree genome -/

/-- C7 counterexample: Gene.createRandom can return a tree whose total
segment count exceeds the global MAX_SEGMENT_COUNT cap of 20, because
createRandomSegment never consults the cap.  The concrete draw stream
cexDrawStream, all of whose values lie in the Math.random range, grows 29
segments. -/
theorem C7_counterexample :
    Gene.MAX_SEGMENT_COUNT
      < Gene.countSegments (Gene.createRandom cexDrawStream 0).1 := by
  with_unfolding_all decide

/-- C7 amended: for every tree returned by Gene.createRandom on a draw
stream within the Math.random range, the maximum depth never exceeds
MAX_DEPTH, no two children of the same node are assigned the same attachment
side, a non-root node's children never use side left (the side by which a
non-root segment attaches to its own parent), and the root's children may use
any of the four sides; the total segment count is bounded by 65 but the
MAX_SEGMENT_COUNT cap of 20 is not enforced (see the counterexample). -/
theorem C7_random_growth (rng : Nat → ℚ) (k : Nat) (hrng : rngValid rng) :
    Gene.getMaxDepth (Gene.createRandom rng k).1 ≤ Gene.MAX_DEPTH
    ∧ sidesOk true (Gene.createRandom rng k).1.rootSegment = true
    ∧ Gene.countSegments (Gene.createRandom rng k).1 ≤ 65
    ∧ (∀ s : AttachmentSide, ∃ rng2 : Nat → ℚ, rngValid rng2 ∧
        some s ∈ ((Gene.createRandom rng2 0).1.rootSegment.children.map
          BodyPartGene.attachmentSide)) := by
  obtain ⟨hseg, _⟩ := grow_good growthFuel
  obtain ⟨h1, h2, h3⟩ := hseg rng k 0 true hrng
  have hM : Gene.MAX_DEPTH = 4 := rfl
  refine ⟨?_, ?_, ?_, ?_⟩
  · have he : Gene.getMaxDepth (Gene.createRandom rng k).1
        = getMaxDepthRecursive (createRandomSegment growthFuel rng k 0 true).1 0 :=
      rfl
    rw [he]
    have hb := h1 0
    omega
  · exact h2
  · have he : Gene.countSegments (Gene.createRandom rng k).1
        = countSegmentsRecursive (createRandomSegment growthFuel rng k 0 true).1 :=
      rfl
    rw [he]
    have hs : segBound 0 = 65 := rfl
    omega
  · intro s
    cases s
    · exact ⟨sideStream 0, sideStream_valid 0 (by norm_num) (by norm_num),
        by with_unfolding_all decide⟩
    · exact ⟨sideStream (1 / 4), sideStream_valid (1 / 4) (by norm_num) (by norm_num),
        by with_unfolding_all decide⟩
    · exact ⟨sideStream (1 / 2), sideStream_valid (1 / 2) (by norm_num) (by norm_num),
        by with_unfolding_all decide⟩
    · exact ⟨sideStream (3 / 4), sideStream_valid (3 / 4) (by norm_num) (by norm_num),
        by with_unfolding_all decide⟩

theorem C7_witness :
    Gene.getMaxDepth (Gene.createRandom (fun _ => 0) 0).1 ≤ Gene.MAX_DEPTH
    ∧ sidesOk true (Gene.createRandom (fun _ => 0) 0).1.rootSegment = true
    ∧ Gene.countSegments (Gene.createRandom (fun _ => 0) 0).1 ≤ 65 := by
  have h := C7_random_growth (fun _ => 0) 0 (fun j => by norm_num)
  exact ⟨h.1, h.2.1, h.2.2.1⟩

/-- C10: countSegmentsRecursive of a segment equals one plus the sum of
countSegmentsRecursive over exactly those children whose active flag is true;
consequently Gene.countSegments always returns at least 1, and an inactive
child excludes its entire subtree from the count even when deeper descendants
are still active. -/
theorem C10_count_segments :
    (∀ (w h : ℚ) (cs : List BodyPartGene) (a : Bool) (s : Option AttachmentSide)
      (p q : ℚ),
      countSegmentsRecursive (BodyPartGene.mk w h cs a s p q)
        = 1 + ((cs.filter (fun c => c.active)).map countSegmentsRecursive).sum)
    ∧ (∀ g : Gene, 1 ≤ g.countSegments)
    ∧ (∀ (w h : ℚ) (cs : List BodyPartGene) (a : Bool) (s : Option AttachmentSide)
      (p q : ℚ) (c : BodyPartGene), c.active = false →
      countSegmentsRecursive (BodyPartGene.mk w h (c :: cs) a s p q)
        = countSegmentsRecursive (BodyPartGene.mk w h cs a s p q)) := by
  refine ⟨?_, ?_, ?_⟩
  · intro w h cs a s p q
    have he : countSegmentsRecursive (BodyPartGene.mk w h cs a s p q)
        = 1 + countSegmentsLoop cs := rfl
    rw [he, countSegmentsLoop_eq_sum]
  · intro g
    cases hg : g.rootSegment with
    | mk w h cs a s p q =>
        have he : g.countSegments = countSegmentsRecursive g.rootSegment := rfl
        rw [he, hg]
        have he2 : countSegmentsRecursive (BodyPartGene.mk w h cs a s p q)
            = 1 + countSegmentsLoop cs := rfl
        omega
  · intro w h cs a s p q c hc
    have he : countSegmentsRecursive (BodyPartGene.mk w h (c :: cs) a s p q)
        = 1 + ((if c.active then countSegmentsRecursive c else 0)
          + countSegmentsLoop cs) := rfl
    rw [he, hc]
    simp only [Bool.false_eq_true, if_false, Nat.zero_add]
    rfl

theorem C10_witness :
    countSegmentsRecursive (BodyPartGene.mk 1 1
      [BodyPartGene.mk 1 1 [BodyPartGene.mk 1 1 [] true none 0 1] false none 0 1]
      true none 0 1) = 1 := by
  have h := C10_count_segments.2.2 1 1 [] true none 0 1
    (BodyPartGene.mk 1 1 [BodyPartGene.mk 1 1 [] true none 0 1] false none 0 1) rfl
  rw [h]
  rfl


/-! ### Helper lemmas for the genome claims -/

theorem clampQ_mem (lo hi x : ℚ) (h : lo ≤ hi) :
    lo ≤ clampQ lo hi x ∧ clampQ lo hi x ≤ hi := by
  unfold clampQ
  constructor
  · exact le_max_left lo _
  · exact max_le h (min_le_left hi x)

theorem getD_range_map {α : Type} (n : Nat) (f : Nat → α) (d : α) (i : Nat)
    (h : i < n) :
    ((List.range n).map f).getD i d = f i := by
  rw [List.getD_eq_getElem?_getD]
  rw [List.getElem?_eq_getElem (by simpa using h)]
  simp

theorem getD_mem {α : Type} (l : List α) (i : Nat) (d : α) (h : i < l.length) :
    l.getD i d ∈ l := by
  rw [List.getD_eq_getElem?_getD, List.getElem?_eq_getElem h]
  exact List.getElem_mem h

theorem mkFlatBodyPartGene_inRange (w h : ℚ) (parent : Option Nat) (a : Bool)
    (side : Option AttachmentSide) (pos angle : ℚ) :
    geneInRange (mkFlatBodyPartGene w h parent a side pos angle) := by
  unfold geneInRange mkFlatBodyPartGene
  refine ⟨?_, ?_, ?_, ?_, ?_, ?_, ?_, ?_⟩ <;>
    first
      | exact (clampQ_mem _ _ _ (by norm_num)).1
      | exact (clampQ_mem _ _ _ (by norm_num)).2

theorem mutateBodyGene_inRange (rate strength : ℚ) (rng : Nat → ℚ) (k : Nat)
    (g : FlatBodyPartGene) (hg : geneInRange g) :
    geneInRange (mutateBodyGene rate strength rng k g).1 := by
  obtain ⟨h1, h2, h3, h4, h5, h6, h7, h8⟩ := hg
  unfold mutateBodyGene
  refine ⟨?_, ?_, ?_, ?_, ?_, ?_, ?_, ?_⟩ <;>
    simp only [] <;>
    split_ifs <;>
    (try cases hp : g.parentIndex) <;>
    simp only [] <;>
    first
      | assumption
      | exact (clampQ_mem _ _ _ (by norm_num)).1
      | exact (clampQ_mem _ _ _ (by norm_num)).2

theorem mutateBodyGenes_inRange (rate strength : ℚ) (rng : Nat → ℚ) :
    ∀ (l : List FlatBodyPartGene) (k : Nat), (∀ c ∈ l, geneInRange c) →
      ∀ c ∈ (mutateBodyGenes rate strength rng l k).1, geneInRange c := by
  intro l
  induction l with
  | nil => intro k _ c hc; simp [mutateBodyGenes] at hc
  | cons g gs ih =>
      intro k hl c hc
      have he : (mutateBodyGenes rate strength rng (g :: gs) k).1
          = (mutateBodyGene rate strength rng k g).1
            :: (mutateBodyGenes rate strength rng gs
              (mutateBodyGene rate strength rng k g).2).1 := rfl
      rw [he] at hc
      rcases List.mem_cons.mp hc with h | h
      · rw [h]
        exact mutateBodyGene_inRange rate strength rng k g (hl g (by simp))
      · exact ih _ (fun x hx => hl x (by simp [hx])) c h

theorem mutateBodyGenes_length (rate strength : ℚ) (rng : Nat → ℚ) :
    ∀ (l : List FlatBodyPartGene) (k : Nat),
      (mutateBodyGenes rate strength rng l k).1.length = l.length := by
  intro l
  induction l with
  | nil => intro k; rfl
  | cons g gs ih =>
      intro k
      have he : (mutateBodyGenes rate strength rng (g :: gs) k).1
          = (mutateBodyGene rate strength rng k g).1
            :: (mutateBodyGenes rate strength rng gs
              (mutateBodyGene rate strength rng k g).2).1 := rfl
      rw [he]
      simp [ih]

theorem mutateBrainList_inRange (rate strength : ℚ) (rng : Nat → ℚ) :
    ∀ (l : List ℚ) (k : Nat), (∀ v ∈ l, -5 ≤ v ∧ v ≤ 5) →
      ∀ v ∈ (mutateBrainList rate strength rng l k).1, -5 ≤ v ∧ v ≤ 5 := by
  intro l
  induction l with
  | nil => intro k _ v hv; simp [mutateBrainList] at hv
  | cons x xs ih =>
      intro k hl v hv
      simp only [mutateBrainList] at hv
      split_ifs at hv
      · rcases List.mem_cons.mp hv with h | h
        · rw [h]
          exact clampQ_mem _ _ _ (by norm_num)
        · exact ih _ (fun y hy => hl y (by simp [hy])) v h
      · rcases List.mem_cons.mp hv with h | h
        · rw [h]
          exact hl x (by simp)
        · exact ih _ (fun y hy => hl y (by simp [hy])) v h

theorem mutateBrainList_length (rate strength : ℚ) (rng : Nat → ℚ) :
    ∀ (l : List ℚ) (k : Nat),
      (mutateBrainList rate strength rng l k).1.length = l.length := by
  intro l
  induction l with
  | nil => intro k; rfl
  | cons x xs ih =>
      intro k
      simp only [mutateBrainList]
      split_ifs <;> simp [ih]

theorem setInactive_inRange (l : List FlatBodyPartGene) (i : Nat)
    (hl : ∀ c ∈ l, geneInRange c) :
    ∀ c ∈ setInactive l i, geneInRange c := by
  intro c hc
  unfold setInactive at hc
  by_cases hi : i < l.length
  · rcases List.mem_or_eq_of_mem_set hc with h | h
    · exact hl c h
    · rw [h]
      have hmem := getD_mem l i default hi
      have hr := hl _ hmem
      exact hr
  · rw [List.set_eq_of_length_le (by omega)] at hc
    exact hl c hc

theorem dd_preserve (fuel : Nat) :
    (∀ (genes : List FlatBodyPartGene) (p : Nat),
      (∀ c ∈ genes, geneInRange c) →
      ∀ c ∈ deactivateDescendants fuel genes p, geneInRange c)
    ∧ (∀ (genes : List FlatBodyPartGene) (p i : Nat),
      (∀ c ∈ genes, geneInRange c) →
      ∀ c ∈ ddLoop fuel genes p i, geneInRange c) := by
  induction fuel with
  | zero =>
      constructor
      · intro genes p h c hc
        exact h c hc
      · intro genes p i h c hc
        exact h c hc
  | succ fuel ih =>
      obtain ⟨ihD, ihL⟩ := ih
      constructor
      · intro genes p h c hc
        exact ihL genes p 0 h c hc
      · intro genes p i h c hc
        have he : ddLoop (fuel + 1) genes p i =
            if i < genes.length then
              if (genes.getD i default).active
                  ∧ (genes.getD i default).parentIndex = some p then
                ddLoop fuel (deactivateDescendants fuel (setInactive genes i) i) p (i + 1)
              else ddLoop fuel genes p (i + 1)
            else genes := rfl
        rw [he] at hc
        split_ifs at hc
        · exact ihL _ _ _ (ihD _ _ (setInactive_inRange genes i h)) c hc
        · exact ihL _ _ _ h c hc
        · exact h c hc


/-! ### Rebuild, structural mutation and whole-genome mutation lemmas -/

theorem rebuild_bodyGene (g : Genome) (rng : Nat → ℚ) (k : Nat) :
    (Genome.rebuildBrainForNewBody g rng k).1.bodyGene = g.bodyGene := rfl

theorem rebuild_config (g : Genome) (rng : Nat → ℚ) (k : Nat) :
    (Genome.rebuildBrainForNewBody g rng k).1.brainConfig
      = Genome.calculateBrainConfig g.bodyGene := rfl

theorem rebuild_length (g : Genome) (rng : Nat → ℚ) (k : Nat) :
    (Genome.rebuildBrainForNewBody g rng k).1.brainGene.length
      = getGRUGeneSize (Genome.calculateBrainConfig g.bodyGene) := by
  simp [Genome.rebuildBrainForNewBody]

theorem rebuild_invariant (g : Genome) (rng : Nat → ℚ) (k : Nat) :
    (Genome.rebuildBrainForNewBody g rng k).1.sizeInvariant := by
  unfold Genome.sizeInvariant
  rw [rebuild_length, rebuild_config]

theorem rebuild_copied (g : Genome) (rng : Nat → ℚ) (k i : Nat)
    (hi : i < min g.brainGene.length
      (getGRUGeneSize (Genome.calculateBrainConfig g.bodyGene))) :
    (Genome.rebuildBrainForNewBody g rng k).1.brainGene.getD i 0
      = g.brainGene.getD i 0 := by
  unfold Genome.rebuildBrainForNewBody
  simp only []
  rw [getD_range_map _ _ _ i (by omega), if_pos hi]

theorem rebuild_tail (g : Genome) (rng : Nat → ℚ) (k i : Nat)
    (h1 : min g.brainGene.length
      (getGRUGeneSize (Genome.calculateBrainConfig g.bodyGene)) ≤ i)
    (h2 : i < getGRUGeneSize (Genome.calculateBrainConfig g.bodyGene)) :
    (Genome.rebuildBrainForNewBody g rng k).1.brainGene.getD i 0
      = (rng (k + (i - min g.brainGene.length
          (getGRUGeneSize (Genome.calculateBrainConfig g.bodyGene)))) * 2 - 1)
        * (1 / 2) := by
  unfold Genome.rebuildBrainForNewBody
  simp only []
  rw [getD_range_map _ _ _ i h2, if_neg (by omega)]

theorem rebuild_brainInRange (g : Genome) (rng : Nat → ℚ) (k : Nat)
    (hb : brainInRange g.brainGene) (hr : rngValid rng) :
    brainInRange (Genome.rebuildBrainForNewBody g rng k).1.brainGene := by
  intro v hv
  unfold Genome.rebuildBrainForNewBody at hv
  simp only [List.mem_map, List.mem_range] at hv
  obtain ⟨i, hi, rfl⟩ := hv
  split_ifs with hc
  · exact hb _ (getD_mem _ _ _ (by omega))
  · obtain ⟨hr0, hr1⟩ := hr (k + (i - min g.brainGene.length
      (getGRUGeneSize (Genome.calculateBrainConfig g.bodyGene))))
    constructor <;> nlinarith

theorem addRandomBodyPart_invariant (g : Genome) (rng : Nat → ℚ) (k : Nat)
    (hg : g.sizeInvariant) :
    (Genome.addRandomBodyPart g rng k).1.sizeInvariant := by
  simp only [Genome.addRandomBodyPart]
  split_ifs <;> first | exact hg | exact rebuild_invariant _ _ _

theorem addRandomBodyPart_inRange (g : Genome) (rng : Nat → ℚ) (k : Nat)
    (hb : bodyInRange g.bodyGene) (hbr : brainInRange g.brainGene)
    (hr : rngValid rng) :
    bodyInRange (Genome.addRandomBodyPart g rng k).1.bodyGene
    ∧ brainInRange (Genome.addRandomBodyPart g rng k).1.brainGene := by
  simp only [Genome.addRandomBodyPart]
  split_ifs
  · exact ⟨hb, hbr⟩
  all_goals
    refine ⟨?_, rebuild_brainInRange _ _ _ hbr hr⟩
  all_goals
    rw [rebuild_bodyGene]
    intro c hc
    simp only [FlatGene.addBodyPartGene, List.mem_append, List.mem_singleton] at hc
    rcases hc with h | h
    · exact hb c h
    · rw [h]
      exact mkFlatBodyPartGene_inRange _ _ _ _ _ _ _

theorem removeRandomBodyPart_invariant (g : Genome) (rng : Nat → ℚ) (k : Nat)
    (hg : g.sizeInvariant) :
    (Genome.removeRandomBodyPart g rng k).1.sizeInvariant := by
  simp only [Genome.removeRandomBodyPart]
  split_ifs
  · exact hg
  · exact rebuild_invariant _ _ _

theorem removeRandomBodyPart_inRange (g : Genome) (rng : Nat → ℚ) (k : Nat)
    (hb : bodyInRange g.bodyGene) (hbr : brainInRange g.brainGene)
    (hr : rngValid rng) :
    bodyInRange (Genome.removeRandomBodyPart g rng k).1.bodyGene
    ∧ brainInRange (Genome.removeRandomBodyPart g rng k).1.brainGene := by
  simp only [Genome.removeRandomBodyPart]
  split_ifs
  · exact ⟨hb, hbr⟩
  · constructor
    · rw [rebuild_bodyGene]
      intro c hc
      exact (dd_preserve _).1 _ _ (setInactive_inRange _ _ hb) c hc
    · exact rebuild_brainInRange _ _ _ hbr hr

theorem mutateBody_invariant (g : Genome) (rate strength : ℚ) (rng : Nat → ℚ)
    (k : Nat) (hg : g.sizeInvariant) :
    (Genome.mutateBody g rate strength rng k).1.sizeInvariant := by
  unfold Genome.mutateBody
  simp only []
  split_ifs
  · exact removeRandomBodyPart_invariant _ _ _
      (addRandomBodyPart_invariant _ _ _ hg)
  · exact addRandomBodyPart_invariant _ _ _ hg
  · exact removeRandomBodyPart_invariant _ _ _ hg
  · exact hg

theorem mutateBody_inRange (g : Genome) (rate strength : ℚ) (rng : Nat → ℚ)
    (k : Nat) (hb : bodyInRange g.bodyGene) (hbr : brainInRange g.brainGene)
    (hr : rngValid rng) :
    bodyInRange (Genome.mutateBody g rate strength rng k).1.bodyGene
    ∧ brainInRange (Genome.mutateBody g rate strength rng k).1.brainGene := by
  unfold Genome.mutateBody
  simp only []
  have hb1 : bodyInRange
      (⟨⟨(mutateBodyGenes rate strength rng g.bodyGene.BodyPartGenes k).1⟩,
        g.brainGene, g.brainConfig⟩ : Genome).bodyGene :=
    fun c hc => mutateBodyGenes_inRange rate strength rng _ _ hb c hc
  split_ifs
  · exact removeRandomBodyPart_inRange _ _ _
      (addRandomBodyPart_inRange _ _ _ hb1 hbr hr).1
      (addRandomBodyPart_inRange _ _ _ hb1 hbr hr).2 hr
  · exact addRandomBodyPart_inRange _ _ _ hb1 hbr hr
  · exact removeRandomBodyPart_inRange _ _ _ hb1 hbr hr
  · exact ⟨hb1, hbr⟩

theorem mutate_invariant (g : Genome) (rate strength : ℚ) (rng : Nat → ℚ)
    (k : Nat) (hg : g.sizeInvariant) :
    (Genome.mutate g rate strength rng k).1.sizeInvariant := by
  unfold Genome.mutate Genome.mutateBrain Genome.sizeInvariant
  simp only [mutateBrainList_length]
  exact mutateBody_invariant g rate strength rng k hg

theorem mutate_inRange (g : Genome) (rate strength : ℚ) (rng : Nat → ℚ)
    (k : Nat) (hb : bodyInRange g.bodyGene) (hbr : brainInRange g.brainGene)
    (hr : rngValid rng) :
    bodyInRange (Genome.mutate g rate strength rng k).1.bodyGene
    ∧ brainInRange (Genome.mutate g rate strength rng k).1.brainGene := by
  unfold Genome.mutate Genome.mutateBrain
  simp only []
  obtain ⟨h1, h2⟩ := mutateBody_inRange g rate strength rng k hb hbr hr
  exact ⟨h1, fun v hv => mutateBrainList_inRange rate strength rng _ _ h2 v hv⟩


/-! ### Object-store lemmas for the clone claim -/

theorem getD_set_ne {α : Type} (l : List α) (i j : Nat) (a d : α) (h : i ≠ j) :
    (l.set i a).getD j d = l.getD j d := by
  rw [List.getD_eq_getElem?_getD, List.getD_eq_getElem?_getD,
    List.getElem?_set_ne h]

theorem getD_append_left {α : Type} (l1 l2 : List α) (i : Nat) (d : α)
    (h : i < l1.length) :
    (l1 ++ l2).getD i d = l1.getD i d := by
  rw [List.getD_eq_getElem?_getD, List.getD_eq_getElem?_getD,
    List.getElem?_append_left h]

theorem getD_append_shift {α : Type} (l1 l2 : List α) (i : Nat) (d : α) :
    (l1 ++ l2).getD (l1.length + i) d = l2.getD i d := by
  rw [List.getD_eq_getElem?_getD, List.getElem?_append_right (by omega)]
  have he : l1.length + i - l1.length = i := by omega
  rw [he, ← List.getD_eq_getElem?_getD]

theorem cloneAlloc_readBody (g : GenomeRefs) (m : Mem) :
    (Genome.cloneAlloc g m).1.readBody (Genome.cloneAlloc g m).2
      = ⟨(g.geneRefs.map m.readGene).map cloneGeneObj⟩ := by
  unfold Genome.cloneAlloc GenomeRefs.readBody
  simp only []
  congr 1
  rw [List.map_map]
  have hpt : ∀ i ∈ List.range ((g.geneRefs.map m.readGene).map cloneGeneObj).length,
      (Mem.readGene ⟨m.genes ++ (g.geneRefs.map m.readGene).map cloneGeneObj,
        m.bufs ++ [g.readBrain m]⟩ ∘ fun i => m.genes.length + i) i
      = ((g.geneRefs.map m.readGene).map cloneGeneObj).getD i default := by
    intro i _
    show (m.genes ++ (g.geneRefs.map m.readGene).map cloneGeneObj).getD
        (m.genes.length + i) default = _
    rw [getD_append_shift]
  rw [List.map_congr_left hpt]
  have hlen : ∀ (l : List FlatBodyPartGene),
      (List.range l.length).map (fun i => l.getD i default) = l := by
    intro l
    apply List.ext_getElem
    · simp
    · intro i h1 h2
      simp [List.getD_eq_getElem?_getD, List.getElem?_eq_getElem h2]
  exact hlen _

theorem cloneAlloc_readBrain (g : GenomeRefs) (m : Mem) :
    (Genome.cloneAlloc g m).1.readBrain (Genome.cloneAlloc g m).2
      = g.readBrain m := by
  unfold Genome.cloneAlloc GenomeRefs.readBrain
  simp only []
  have he : m.bufs.length = m.bufs.length + 0 := rfl
  rw [he, getD_append_shift]
  rfl

theorem cloneAlloc_refs_ge (g : GenomeRefs) (m : Mem) :
    ∀ r ∈ (Genome.cloneAlloc g m).1.geneRefs, m.genes.length ≤ r := by
  intro r hr
  unfold Genome.cloneAlloc at hr
  simp only [List.mem_map, List.mem_range] at hr
  obtain ⟨i, _, rfl⟩ := hr
  omega

/-- countSegments only reads the active flags, which the constructor copy
preserves. -/
theorem countSegments_map_clone (l : List FlatBodyPartGene) :
    FlatGene.countSegments ⟨l.map cloneGeneObj⟩ = FlatGene.countSegments ⟨l⟩ := by
  unfold FlatGene.countSegments
  simp only []
  rw [← List.countP_eq_length_filter, ← List.countP_eq_length_filter,
    List.countP_map]
  rfl

/-- getMaxDepth only reads the parent indices and active flags, which the
constructor copy preserves. -/
theorem getMaxDepth_map_clone (l : List FlatBodyPartGene) :
    FlatGene.getMaxDepth ⟨l.map cloneGeneObj⟩ = FlatGene.getMaxDepth ⟨l⟩ := by
  unfold FlatGene.getMaxDepth
  simp only []
  rw [List.map_map]
  rfl

/-- getMaxDepth counts nodes on the parent chain: a gene that holds only
the root has depth 1. -/
theorem getMaxDepth_singleton :
    FlatGene.getMaxDepth ⟨[mkFlatBodyPartGene 1 1 none true none (1 / 2) 1]⟩
      = 1 := by
  with_unfolding_all decide

/-- The default three-segment body (root plus two limbs attached to it) has
max depth 2. -/
theorem getMaxDepth_createDefault :
    FlatGene.createDefault.getMaxDepth = 2 := by
  with_unfolding_all decide


/-- Iterated mutation preserves the clamp ranges of every body gene and the
hard brain ceiling, for any rate and strength and any Math.random draw
stream. -/
theorem mutateTimes_inRange (rate strength : ℚ) (rng : Nat → ℚ)
    (hr : rngValid rng) :
    ∀ (n : Nat) (gk : Genome × Nat), bodyInRange gk.1.bodyGene →
      brainInRange gk.1.brainGene →
      bodyInRange (mutateTimes rate strength rng n gk).1.bodyGene
      ∧ brainInRange (mutateTimes rate strength rng n gk).1.brainGene := by
  intro n
  induction n with
  | zero => intro gk h1 h2; exact ⟨h1, h2⟩
  | succ n ih =>
      intro gk h1 h2
      have he : mutateTimes rate strength rng (n + 1) gk
          = mutateTimes rate strength rng n
            (Genome.mutate gk.1 rate strength rng gk.2) := rfl
      rw [he]
      obtain ⟨m1, m2⟩ := mutate_inRange gk.1 rate strength rng gk.2 h1 h2 hr
      exact ih _ m1 m2

/-! ### Claim theorems for the genome -/

/-- C4: every Genome operation preserves the size invariant
brainGene.length = getGRUGeneSize(brainConfig): createRandom and
createDefault establish it, clone preserves it over the object store, and
mutate preserves it; rebuildBrainForNewBody recomputes the config from the
current body and produces a buffer of exactly the required size whose prefix
of length min(oldSize, newSize) equals the old buffer's prefix and whose
trailing entries are freshly randomized draws; and the structural mutations
either change nothing or route the body change through
rebuildBrainForNewBody. -/
theorem C4_brain_size_invariant :
    (∀ (rng : Nat → ℚ) (k : Nat), (Genome.createRandom rng k).sizeInvariant)
    ∧ (∀ (rng : Nat → ℚ) (k : Nat), (Genome.createDefault rng k).sizeInvariant)
    ∧ (∀ (m : Mem) (g : GenomeRefs),
        (⟨g.readBody m, g.readBrain m, g.brainConfig⟩ : Genome).sizeInvariant →
        (⟨(Genome.cloneAlloc g m).1.readBody (Genome.cloneAlloc g m).2,
          (Genome.cloneAlloc g m).1.readBrain (Genome.cloneAlloc g m).2,
          (Genome.cloneAlloc g m).1.brainConfig⟩ : Genome).sizeInvariant)
    ∧ (∀ (g : Genome) (rate strength : ℚ) (rng : Nat → ℚ) (k : Nat),
        g.sizeInvariant → (Genome.mutate g rate strength rng k).1.sizeInvariant)
    ∧ (∀ (g : Genome) (rng : Nat → ℚ) (k : Nat),
        (Genome.rebuildBrainForNewBody g rng k).1.brainConfig
          = Genome.calculateBrainConfig g.bodyGene
        ∧ (Genome.rebuildBrainForNewBody g rng k).1.sizeInvariant
        ∧ (∀ i, i < min g.brainGene.length
              (getGRUGeneSize (Genome.calculateBrainConfig g.bodyGene)) →
            (Genome.rebuildBrainForNewBody g rng k).1.brainGene.getD i 0
              = g.brainGene.getD i 0)
        ∧ (∀ i, min g.brainGene.length
              (getGRUGeneSize (Genome.calculateBrainConfig g.bodyGene)) ≤ i →
            i < getGRUGeneSize (Genome.calculateBrainConfig g.bodyGene) →
            (Genome.rebuildBrainForNewBody g rng k).1.brainGene.getD i 0
              = (rng (k + (i - min g.brainGene.length
                  (getGRUGeneSize (Genome.calculateBrainConfig g.bodyGene))))
                  * 2 - 1) * (1 / 2)))
    ∧ (∀ (g : Genome) (rng : Nat → ℚ) (k : Nat),
        Genome.addRandomBodyPart g rng k = (g, k)
        ∨ ∃ body2 : FlatGene, Genome.addRandomBodyPart g rng k
            = Genome.rebuildBrainForNewBody ⟨body2, g.brainGene, g.brainConfig⟩
              rng (k + 6))
    ∧ (∀ (g : Genome) (rng : Nat → ℚ) (k : Nat),
        Genome.removeRandomBodyPart g rng k = (g, k)
        ∨ ∃ body2 : FlatGene, Genome.removeRandomBodyPart g rng k
            = Genome.rebuildBrainForNewBody ⟨body2, g.brainGene, g.brainConfig⟩
              rng (k + 1)) := by
  refine ⟨?_, ?_, ?_, ?_, ?_, ?_, ?_⟩
  · intro rng k
    unfold Genome.createRandom Genome.sizeInvariant
    simp
  · intro rng k
    unfold Genome.createDefault Genome.sizeInvariant
    simp
  · intro m g hg
    unfold Genome.sizeInvariant at hg ⊢
    simp only [] at hg ⊢
    rw [cloneAlloc_readBrain]
    exact hg
  · intro g rate strength rng k hg
    exact mutate_invariant g rate strength rng k hg
  · intro g rng k
    exact ⟨rebuild_config g rng k, rebuild_invariant g rng k,
      fun i hi => rebuild_copied g rng k i hi,
      fun i h1 h2 => rebuild_tail g rng k i h1 h2⟩
  · intro g rng k
    simp only [Genome.addRandomBodyPart]
    split_ifs
    · exact Or.inl rfl
    · exact Or.inr ⟨_, rfl⟩
    · exact Or.inr ⟨_, rfl⟩
  · intro g rng k
    simp only [Genome.removeRandomBodyPart]
    split_ifs
    · exact Or.inl rfl
    · exact Or.inr ⟨_, rfl⟩

theorem C4_witness :
    (Genome.mutate ⟨⟨[mkFlatBodyPartGene 1 1 none true none (1 / 2) 1]⟩,
      [], ⟨0, 0, 0⟩⟩ 1 1 (fun _ => 1 / 2) 0).1.sizeInvariant :=
  C4_brain_size_invariant.2.2.2.1
    ⟨⟨[mkFlatBodyPartGene 1 1 none true none (1 / 2) 1]⟩,
      [], ⟨0, 0, 0⟩⟩ 1 1 (fun _ => 1 / 2) 0
    (by unfold Genome.sizeInvariant; rfl)

/-- C5: for every genome whose genes start inside their clamp ranges, any
number of mutate() iterations with any mutationRate and mutationStrength and
any Math.random draw stream keeps every body gene's normalized width and
height within 0.05 to 1, its attachment position and angle range within 0 to
1, and every brain parameter within the hard ceiling -5 to 5. -/
theorem C5_mutation_bounds (g : Genome) (rate strength : ℚ) (rng : Nat → ℚ)
    (k n : Nat) (hb : bodyInRange g.bodyGene) (hbr : brainInRange g.brainGene)
    (hr : rngValid rng) :
    bodyInRange (mutateTimes rate strength rng n (g, k)).1.bodyGene
    ∧ brainInRange (mutateTimes rate strength rng n (g, k)).1.brainGene :=
  mutateTimes_inRange rate strength rng hr n (g, k) hb hbr

theorem C5_witness :
    bodyInRange (mutateTimes 1 1 (fun _ => 1 / 2) 1
      (⟨⟨[mkFlatBodyPartGene 1 1 none true none (1 / 2) 1]⟩, [0], ⟨3, 6, 1⟩⟩, 0)).1.bodyGene
    ∧ brainInRange (mutateTimes 1 1 (fun _ => 1 / 2) 1
      (⟨⟨[mkFlatBodyPartGene 1 1 none true none (1 / 2) 1]⟩, [0], ⟨3, 6, 1⟩⟩, 0)).1.brainGene := by
  refine C5_mutation_bounds _ 1 1 _ 0 1 ?_ ?_ ?_
  · intro c hc
    have hc2 : c = mkFlatBodyPartGene 1 1 none true none (1 / 2) 1 := by
      simpa using hc
    subst hc2
    unfold geneInRange
    with_unfolding_all decide
  · intro v hv
    have hv2 : v = 0 := by simpa using hv
    subst hv2
    with_unfolding_all decide
  · intro j
    refine ⟨by norm_num, by norm_num⟩

/-- C6: Genome.clone returns a genome with identical segment count, max
depth and brain parameter values, backed by entirely fresh storage: every
cloned gene reference and the cloned buffer reference are disjoint from the
original's, so a write through any clone reference leaves every readback of
the original unchanged and vice versa. -/
theorem C6_clone_deep_copy (m : Mem) (g : GenomeRefs)
    (hg : ∀ r ∈ g.geneRefs, r < m.genes.length)
    (hb : g.brainRef < m.bufs.length) :
    ((Genome.cloneAlloc g m).1.readBody (Genome.cloneAlloc g m).2).countSegments
      = (g.readBody m).countSegments
    ∧ ((Genome.cloneAlloc g m).1.readBody (Genome.cloneAlloc g m).2).getMaxDepth
      = (g.readBody m).getMaxDepth
    ∧ (Genome.cloneAlloc g m).1.readBrain (Genome.cloneAlloc g m).2 = g.readBrain m
    ∧ (∀ r ∈ (Genome.cloneAlloc g m).1.geneRefs, r ∉ g.geneRefs)
    ∧ (Genome.cloneAlloc g m).1.brainRef ≠ g.brainRef
    ∧ (∀ r ∈ (Genome.cloneAlloc g m).1.geneRefs, ∀ x : FlatBodyPartGene,
        g.readBody ((Genome.cloneAlloc g m).2.writeGene r x) = g.readBody m)
    ∧ (∀ (j : Nat) (v : ℚ),
        g.readBrain ((Genome.cloneAlloc g m).2.writeBuf
          (Genome.cloneAlloc g m).1.brainRef j v) = g.readBrain m)
    ∧ (∀ r ∈ g.geneRefs, ∀ x : FlatBodyPartGene,
        (Genome.cloneAlloc g m).1.readBody ((Genome.cloneAlloc g m).2.writeGene r x)
          = (Genome.cloneAlloc g m).1.readBody (Genome.cloneAlloc g m).2)
    ∧ (∀ (j : Nat) (v : ℚ),
        (Genome.cloneAlloc g m).1.readBrain ((Genome.cloneAlloc g m).2.writeBuf
          g.brainRef j v)
          = (Genome.cloneAlloc g m).1.readBrain (Genome.cloneAlloc g m).2) := by
  have hrefs := cloneAlloc_refs_ge g m
  refine ⟨?_, ?_, cloneAlloc_readBrain g m, ?_, ?_, ?_, ?_, ?_, ?_⟩
  · rw [cloneAlloc_readBody]
    exact countSegments_map_clone _
  · rw [cloneAlloc_readBody]
    exact getMaxDepth_map_clone _
  · intro r hr hmem
    have h1 := hrefs r hr
    have h2 := hg r hmem
    omega
  · have h1 : (Genome.cloneAlloc g m).1.brainRef = m.bufs.length := rfl
    omega
  · intro r hr x
    have h1 := hrefs r hr
    unfold GenomeRefs.readBody Mem.writeGene
    congr 1
    apply List.map_congr_left
    intro r0 hr0
    have h2 := hg r0 hr0
    show (((Genome.cloneAlloc g m).2.genes.set r x).getD r0 default) = _
    rw [getD_set_ne _ _ _ _ _ (by omega)]
    show ((m.genes ++ _).getD r0 default) = _
    rw [getD_append_left _ _ _ _ (by omega)]
    rfl
  · intro j v
    unfold GenomeRefs.readBrain Mem.writeBuf
    simp only []
    have h1 : (Genome.cloneAlloc g m).1.brainRef = m.bufs.length := rfl
    rw [h1]
    rw [getD_set_ne _ _ _ _ _ (by omega)]
    show ((m.bufs ++ _).getD g.brainRef []) = _
    rw [getD_append_left _ _ _ _ (by omega)]
  · intro r hr x
    unfold GenomeRefs.readBody Mem.writeGene
    congr 1
    apply List.map_congr_left
    intro r1 hr1
    have h1 := hrefs r1 hr1
    have h2 := hg r hr
    show (((Genome.cloneAlloc g m).2.genes.set r x).getD r1 default) = _
    rw [getD_set_ne _ _ _ _ _ (by omega)]
    rfl
  · intro j v
    unfold GenomeRefs.readBrain Mem.writeBuf
    simp only []
    have h1 : (Genome.cloneAlloc g m).1.brainRef = m.bufs.length := rfl
    rw [h1]
    rw [getD_set_ne _ _ _ _ _ (by omega)]

theorem C6_witness :
    (Genome.cloneAlloc ⟨[0], 0, ⟨1, 6, 1⟩⟩ ⟨[⟨1, 1, none, true, none, 0, 1⟩], [[0]]⟩).1.brainRef
      ≠ (⟨[0], 0, ⟨1, 6, 1⟩⟩ : GenomeRefs).brainRef
    ∧ (Genome.cloneAlloc ⟨[0], 0, ⟨1, 6, 1⟩⟩ ⟨[⟨1, 1, none, true, none, 0, 1⟩], [[0]]⟩).1.readBrain
        (Genome.cloneAlloc ⟨[0], 0, ⟨1, 6, 1⟩⟩ ⟨[⟨1, 1, none, true, none, 0, 1⟩], [[0]]⟩).2
      = GenomeRefs.readBrain ⟨[0], 0, ⟨1, 6, 1⟩⟩ ⟨[⟨1, 1, none, true, none, 0, 1⟩], [[0]]⟩ := by
  have h := C6_clone_deep_copy ⟨[⟨1, 1, none, true, none, 0, 1⟩], [[0]]⟩
    ⟨[0], 0, ⟨1, 6, 1⟩⟩ (by with_unfolding_all decide) (by decide)
  exact ⟨h.2.2.2.2.1, h.2.2.1⟩

end EvoSim
